import Mathlib

/-!
Verification development for the event-scheduling and transactional-commit
engine of the space-raptors repository (src/protocol/lobby.py).

The Python code is shallowly embedded:

* Python dict objects are modelled as association lists (`List (key × value)`)
  whose order models dict insertion order; lookups return the first binding.
* Mutation is modelled by explicit state passing.
* A Python `assert False` (the DEBUG blocks) and uncaught exceptions such as
  KeyError abort the process; they are modelled by the `PyOutcome.assertFail`
  result, paired with the state as of the failure point.
* Threading and locks are outside the model: each embedded operation models
  one lock-protected step of the endpoint, executed atomically, which is the
  concurrency discipline the source enforces with its mutex.
-/

/-! ## Association-list dictionaries (Python dict model) -/

def dget {α β : Type} [DecidableEq α] : List (α × β) → α → Option β
  | [], _ => none
  | (k2, v) :: rest, k => if k2 = k then some v else dget rest k

def dmem {α β : Type} [DecidableEq α] (d : List (α × β)) (k : α) : Bool :=
  (dget d k).isSome

def dinsert {α β : Type} [DecidableEq α] : List (α × β) → α → β → List (α × β)
  | [], k, v => [(k, v)]
  | (k2, v2) :: rest, k, v =>
      if k2 = k then (k2, v) :: rest else (k2, v2) :: dinsert rest k v

def derase {α β : Type} [DecidableEq α] : List (α × β) → α → List (α × β)
  | [], _ => []
  | (k2, v2) :: rest, k => if k2 = k then rest else (k2, v2) :: derase rest k

def dkeys {α β : Type} (d : List (α × β)) : List α := d.map Prod.fst

/-- Update the value bound to a key, if the key is present (Python
`d[k] = f(d[k])` guarded by `k in d`). -/
def dmodify {α β : Type} [DecidableEq α] : List (α × β) → α → (β → β) → List (α × β)
  | [], _, _ => []
  | (k2, v2) :: rest, k, f =>
      if k2 = k then (k2, f v2) :: rest else (k2, v2) :: dmodify rest k f

theorem dget_dinsert_self {α β : Type} [DecidableEq α] (d : List (α × β)) (k : α) (v : β) :
    dget (dinsert d k v) k = some v := by
  induction d with
  | nil => simp [dinsert, dget]
  | cons hd tl ih =>
    obtain ⟨k2, v2⟩ := hd
    by_cases h : k2 = k
    · simp [dinsert, dget, h]
    · simp [dinsert, dget, h, ih]

theorem dget_dinsert_ne {α β : Type} [DecidableEq α] (d : List (α × β)) (k k2 : α) (v : β)
    (h : k ≠ k2) : dget (dinsert d k v) k2 = dget d k2 := by
  induction d with
  | nil => simp [dinsert, dget, h]
  | cons hd tl ih =>
    obtain ⟨ka, va⟩ := hd
    by_cases h2 : ka = k
    · subst h2
      simp [dinsert, dget, h]
    · simp [dinsert, dget, h2, ih]

theorem dget_eq_none_of_not_mem_dkeys {α β : Type} [DecidableEq α] (d : List (α × β)) (k : α)
    (h : k ∉ dkeys d) : dget d k = none := by
  induction d with
  | nil => simp [dget]
  | cons hd tl ih =>
    obtain ⟨ka, va⟩ := hd
    simp only [dkeys, List.map_cons, List.mem_cons, not_or] at h
    have hne : ¬ka = k := fun he => h.1 he.symm
    simp [dget, hne, ih h.2]

theorem mem_dkeys_of_dget_isSome {α β : Type} [DecidableEq α] (d : List (α × β)) (k : α)
    (h : (dget d k).isSome) : k ∈ dkeys d := by
  by_contra hc
  rw [dget_eq_none_of_not_mem_dkeys d k hc] at h
  simp at h

theorem dget_isSome_of_mem_dkeys {α β : Type} [DecidableEq α] (d : List (α × β)) (k : α)
    (h : k ∈ dkeys d) : (dget d k).isSome := by
  induction d with
  | nil => simp [dkeys] at h
  | cons hd tl ih =>
    obtain ⟨ka, va⟩ := hd
    by_cases h2 : ka = k
    · simp [dget, h2]
    · simp only [dkeys, List.map_cons, List.mem_cons] at h
      rcases h with h | h
      · exact absurd h.symm h2
      · simp [dget, h2, ih h]

theorem dget_derase_ne {α β : Type} [DecidableEq α] (d : List (α × β)) (k k2 : α)
    (h : k ≠ k2) (hnd : (dkeys d).Nodup) : dget (derase d k) k2 = dget d k2 := by
  induction d with
  | nil => simp [derase]
  | cons hd tl ih =>
    obtain ⟨ka, va⟩ := hd
    simp only [dkeys, List.map_cons, List.nodup_cons] at hnd
    by_cases h2 : ka = k
    · subst h2
      simp [derase, dget, h, Ne.symm h]
    · by_cases h3 : ka = k2
      · simp [derase, dget, h2, h3, Ne.symm h]
      · simp [derase, dget, h2, h3, ih hnd.2]

theorem dget_derase_self {α β : Type} [DecidableEq α] (d : List (α × β)) (k : α)
    (hnd : (dkeys d).Nodup) : dget (derase d k) k = none := by
  induction d with
  | nil => simp [derase, dget]
  | cons hd tl ih =>
    obtain ⟨ka, va⟩ := hd
    simp only [dkeys, List.map_cons, List.nodup_cons] at hnd
    by_cases h2 : ka = k
    · subst h2
      simp only [derase, if_pos rfl]
      exact dget_eq_none_of_not_mem_dkeys tl ka hnd.1
    · simp [derase, dget, h2, ih hnd.2]

theorem dget_dmodify_self {α β : Type} [DecidableEq α] (d : List (α × β)) (k : α) (f : β → β) :
    dget (dmodify d k f) k = (dget d k).map f := by
  induction d with
  | nil => simp [dmodify, dget]
  | cons hd tl ih =>
    obtain ⟨ka, va⟩ := hd
    by_cases h : ka = k
    · simp [dmodify, dget, h]
    · simp [dmodify, dget, h, ih]

theorem dget_dmodify_ne {α β : Type} [DecidableEq α] (d : List (α × β)) (k k2 : α) (f : β → β)
    (h : k ≠ k2) : dget (dmodify d k f) k2 = dget d k2 := by
  induction d with
  | nil => simp [dmodify, dget]
  | cons hd tl ih =>
    obtain ⟨ka, va⟩ := hd
    by_cases h2 : ka = k
    · subst h2
      simp [dmodify, dget, h]
    · simp [dmodify, dget, h2, ih]

theorem dkeys_dinsert {α β : Type} [DecidableEq α] (d : List (α × β)) (k : α) (v : β) :
    dkeys (dinsert d k v) = if dmem d k then dkeys d else dkeys d ++ [k] := by
  induction d with
  | nil => simp [dinsert, dkeys, dmem, dget]
  | cons hd tl ih =>
    obtain ⟨ka, va⟩ := hd
    by_cases h : ka = k
    · simp [dinsert, dkeys, dmem, dget, h]
    · simp only [dinsert, if_neg h, dkeys, List.map_cons, dmem, dget, Option.isSome]
      simp only [dkeys, dmem] at ih
      by_cases h2 : (dget tl k).isSome
      · simp only [if_neg h, ih, h2, if_true]
        cases hg : dget tl k with
        | none => rw [hg] at h2; simp at h2
        | some _ => simp [hg]
      · cases hg : dget tl k with
        | none =>
          rw [hg] at ih
          simp only [ih, if_neg h]
          simp
        | some _ => rw [hg] at h2; simp at h2

theorem dkeys_dmodify {α β : Type} [DecidableEq α] (d : List (α × β)) (k : α) (f : β → β) :
    dkeys (dmodify d k f) = dkeys d := by
  induction d with
  | nil => simp [dmodify]
  | cons hd tl ih =>
    obtain ⟨ka, va⟩ := hd
    by_cases h : ka = k
    · simp [dmodify, dkeys, h]
    · simp [dmodify, dkeys, h]
      simpa [dkeys] using ih

theorem dkeys_derase_sublist {α β : Type} [DecidableEq α] (d : List (α × β)) (k : α) :
    (dkeys (derase d k)).Sublist (dkeys d) := by
  induction d with
  | nil => simp [derase]
  | cons hd tl ih =>
    obtain ⟨ka, va⟩ := hd
    by_cases h : ka = k
    · simp only [derase, if_pos h, dkeys, List.map_cons]
      exact List.sublist_cons_self _ _
    · simp only [derase, if_neg h, dkeys, List.map_cons]
      exact ih.cons₂ _

theorem nodup_dkeys_derase {α β : Type} [DecidableEq α] (d : List (α × β)) (k : α)
    (hnd : (dkeys d).Nodup) : (dkeys (derase d k)).Nodup :=
  (dkeys_derase_sublist d k).nodup hnd

theorem nodup_dkeys_dinsert {α β : Type} [DecidableEq α] (d : List (α × β)) (k : α) (v : β)
    (hnd : (dkeys d).Nodup) (hmem : dmem d k = false) :
    (dkeys (dinsert d k v)).Nodup := by
  rw [dkeys_dinsert, hmem]
  simp only [Bool.false_eq_true, if_false, List.nodup_append]
  refine ⟨hnd, List.nodup_singleton k, ?_⟩
  intro a ha hb
  simp only [List.mem_singleton] at hb
  subst hb
  have : (dget d a).isSome := dget_isSome_of_mem_dkeys d a ha
  simp [dmem, this] at hmem

/-! ## Outcomes of embedded Python operations

A Python `assert False` (DEBUG block) or an uncaught KeyError aborts the
process.  Operations return `PyOutcome.assertFail` together with the state as
it stood at the failure point; such a state is never observed by later code
in the source, because the process dies. -/

inductive PyOutcome where
  | ok : PyOutcome
  | assertFail : PyOutcome
deriving DecidableEq

/-! ## Values

The engine stores Python values in its variable dictionaries.  The embedding
uses a small closed value type: `vnone` is Python None (which doubles as the
`_Context.DNE_PLACE_HOLDER`, lobby.py line 590), `vint` covers integers
(external object ids among them), `vstr` strings, `vfunc` the function values
stored in endpoint globals such as 1__on_began_session. -/

inductive Val where
  | vnone : Val
  | vint : Int → Val
  | vstr : String → Val
  | vfunc : Val
deriving DecidableEq

/-- DNE_PLACE_HOLDER = None (lobby.py line 590). -/
def DNE_PLACE_HOLDER : Val := Val.vnone

/-- The integer external-object id stored in an external variable, when the
variable is initialized: in the source the value of an external endpoint
global is either Python None (uninitialized) or the integer id of the shared
object, so only `vint` carries an id. -/
def Val.extIdOf : Val → Option Int
  | Val.vint n => some n
  | _ => none

/-! ## External store (lobby.py lines 187-222 and 403-504)

Python builds string keys with `_externalIdKey(endpointName, extId) =
str(extId) + separator + endpointName` and parses them back with
`_keyToExternalId` and `_getExtIdIfMyEndpoint`.  Since `str(extId)` never
contains the separator, the encoding is injective and the two parsers are
exact inverses; the embedding therefore represents a key directly as the
pair of the external id and the endpoint name. -/

structure ExtKey where
  extId : Int
  endpointName : String
deriving DecidableEq

def externalIdKey (endpointName : String) (extId : Int) : ExtKey :=
  ⟨extId, endpointName⟩

def keyToExternalId (k : ExtKey) : Int := k.extId

/-- Embeds `_getExtIdIfMyEndpoint` (lobby.py lines 207-222). -/
def getExtIdIfMyEndpoint (k : ExtKey) (endpointName : String) : Option Int :=
  if k.endpointName ≠ endpointName then none else some (keyToExternalId k)

/-- Embeds `_ExternalStoreElement` (lobby.py lines 403-406): reference count
plus the owned object, the latter represented by its integer id (the only
observation the engine makes of it in the modelled operations). -/
structure ExternalStoreElement where
  referenceCount : Int
  externalObject : Int
deriving DecidableEq

/-- Embeds `_ExternalStore` (lobby.py lines 409-504); the mutex is the
atomicity of each embedded call. -/
structure ExternalStore where
  dict : List (ExtKey × ExternalStoreElement)
deriving DecidableEq

/-- Embeds `_ExternalStore.changeRefCountById` (lobby.py lines 471-498).
The source first looks the element up (asserting if absent), then adds
`howMuch` to its reference count in place, then asserts that the result is
not negative; on an assert the returned state is the state at the failure
point, after which the Python process dies. -/
def ExternalStore.changeRefCountById (store : ExternalStore) (endpointName : String)
    (extId : Int) (howMuch : Int) : PyOutcome × ExternalStore :=
  let key := externalIdKey endpointName extId
  match dget store.dict key with
  | none => (PyOutcome.assertFail, store)
  | some extElement =>
      let extElement2 :=
        { extElement with referenceCount := extElement.referenceCount + howMuch }
      let store2 : ExternalStore := ⟨dinsert store.dict key extElement2⟩
      if extElement2.referenceCount < 0 then (PyOutcome.assertFail, store2)
      else (PyOutcome.ok, store2)

/-- Embeds `_ExternalStore.getExternalObject` (lobby.py lines 437-452),
returning the stored object (its id) or none. -/
def ExternalStore.getExternalObject (store : ExternalStore) (endpointName : String)
    (extId : Int) : Option Int :=
  match dget store.dict (externalIdKey endpointName extId) with
  | none => none
  | some extElement => some extElement.externalObject

/-- Embeds `_ExternalStore.incrementRefCountAddIfNoExist`
(lobby.py lines 455-469). -/
def ExternalStore.incrementRefCountAddIfNoExist (store : ExternalStore)
    (endpointName : String) (extObjId : Int) : PyOutcome × ExternalStore :=
  let key := externalIdKey endpointName extObjId
  let store1 : ExternalStore :=
    match dget store.dict key with
    | none => ⟨dinsert store.dict key ⟨0, extObjId⟩⟩
    | some _ => store
  ExternalStore.changeRefCountById store1 endpointName extObjId 1

/-- Embeds `_ExternalStore.gcCheckEmptyRefCounts` (lobby.py lines 416-435):
removes every element whose reference count is zero. -/
def ExternalStore.gcCheckEmptyRefCounts (store : ExternalStore) : ExternalStore :=
  ⟨store.dict.filter (fun p => p.2.referenceCount ≠ 0)⟩

/-! ## Context (lobby.py lines 584-958)

A `_Context` is the staged, uncommitted state one event operates on.  Fields
not observed by any verified operation (the onCompletesToFire list and the
return plumbing) are omitted; the thread-safe msgReceivedQueue is a FIFO
list of the integer context ids that were put on it. -/

structure Context where
  id : Option Int
  shareds : List (String × Val)
  endGlobals : List (String × Val)
  seqGlobals : Option (List (String × Val))
  messageSent : Bool
  msgReceivedQueue : List Int
  refCounts : List (ExtKey × Int)
  heldExternalReferences : List ExtKey
  writtenToExternalsOnThisEndpoint : List ExtKey
  endpointName : String
deriving DecidableEq

/-- INVALID_CONTEXT_ID = -1 (lobby.py line 593): guaranteed never to be the
id of a live context. -/
def INVALID_CONTEXT_ID : Int := -1

/-- Embeds `_Context.__init__` (lobby.py lines 595-648): a freshly created
context with empty dictionaries and queue. -/
def Context.init (endpointName : String) : Context :=
  { id := none, shareds := [], endGlobals := [], seqGlobals := none,
    messageSent := false, msgReceivedQueue := [], refCounts := [],
    heldExternalReferences := [], writtenToExternalsOnThisEndpoint := [],
    endpointName := endpointName }

/-- Embeds the queue put performed by
`_Context.signalMessageSequenceComplete` (lobby.py line 927) for the case
used by postponement, where the onComplete argument is None and the only
effect is enqueuing the given context id. -/
def Context.signalQueue (ctx : Context) (contextId : Int) : Context :=
  { ctx with msgReceivedQueue := ctx.msgReceivedQueue ++ [contextId] }

/-- Embeds `_Context.postpone` (lobby.py lines 826-837): signal the waiting
execution with INVALID_CONTEXT_ID. -/
def Context.postpone (ctx : Context) : Context :=
  Context.signalQueue ctx INVALID_CONTEXT_ID

/-- Embeds the generation check a suspended execution performs after reading
an id from msgReceivedQueue (lobby.py lines 3357-3359 and its clones):
true means the check raises _PostponeException, false means the execution
resumes normally. -/
def waitCheckRaisesPostpone (ctx : Context) (receivedContextId : Int) : Bool :=
  decide (some receivedContextId ≠ ctx.id)

/-! ## ActiveEvent (lobby.py lines 1185-1794) -/

/-- Embeds `_ActiveEvent`.  The execution plumbing (argsArray, toExecFrom,
returnQueue) is not observed by the verified operations and is omitted.
Footprints are the key sets of the Python dicts activeGlobReads and
activeGlobWrites, kept as lists of variable identifiers. -/
structure ActiveEvent where
  eventName : String
  activeGlobReads : List String
  activeGlobWrites : List String
  seqGlobals : Option (List (String × Val))
  id : Int
  active : Bool
  contextId : Int
  extsToRead : List Int
  extsToWrite : List Int
  externalVarNames : List String
deriving DecidableEq

/-- Embeds `_ActiveEvent._conflicts` (lobby.py lines 1389-1411): true when
the two events cannot run simultaneously. -/
def ActiveEvent.conflicts (self other : ActiveEvent) : Bool :=
  self.activeGlobWrites.any
      (fun w => other.activeGlobWrites.contains w || other.activeGlobReads.contains w)
    || other.activeGlobWrites.any
      (fun w => self.activeGlobWrites.contains w || self.activeGlobReads.contains w)

/-- One iteration of the copy loops of `_Context.copyForActiveEvent`
(lobby.py lines 748-771): route one footprint variable into the copied
shareds or endGlobals, falling back to the does-not-exist placeholder. -/
def copyOneKey (committed : Context) (acc : Context) (k : String) : Context :=
  match dget committed.shareds k with
  | some v => { acc with shareds := dinsert acc.shareds k v }
  | none =>
      match dget committed.endGlobals k with
      | some v => { acc with endGlobals := dinsert acc.endGlobals k v }
      | none => { acc with endGlobals := dinsert acc.endGlobals k DNE_PLACE_HOLDER }

def copyKeys (committed : Context) : List String → Context → Context
  | [], acc => acc
  | k :: rest, acc => copyKeys committed rest (copyOneKey committed acc k)

/-- Embeds `_Context.copyForActiveEvent` (lobby.py lines 737-777), called on
the committed context: copy the variables of the combined read and write
footprint of the event into a fresh context, then attach the sequence
globals of the event and the new context id. -/
def Context.copyForActiveEvent (committed : Context) (activeEvent : ActiveEvent)
    (contextId : Int) : Context :=
  let returner0 := Context.init committed.endpointName
  let returner1 := copyKeys committed activeEvent.activeGlobReads returner0
  let returner2 := copyKeys committed activeEvent.activeGlobWrites returner1
  { returner2 with seqGlobals := activeEvent.seqGlobals, id := some contextId }

/-- Embeds `_ActiveEvent.filterDoesNotExist` (lobby.py lines 1769-1794):
the names bound to the does-not-exist placeholder in a dict of endpoint
globals. -/
def ActiveEvent.filterDoesNotExist (endGlobals : List (String × Val)) :
    List (String × Bool) :=
  endGlobals.foldl
    (fun returner p =>
      if p.2 = DNE_PLACE_HOLDER then dinsert returner p.1 true else returner)
    []

/-! ## Endpoint state (lobby.py lines 1798-1896)

The mutable state of one `_Endpoint`, as touched by the verified operations.
The connection object and the reservation manager are injected collaborators
(outside the repository); the outcome of a reservation-manager acquisition
is passed to each admission step as the oracle argument `reserveOk`, and its
release calls have no effect on endpoint state.  The string-keyed internal
function dispatch table only affects which body executes and is omitted. -/

structure ActiveEventDictElement where
  actEvent : ActiveEvent
  eventContext : Context
deriving DecidableEq

/-- Embeds `_Event` (lobby.py lines 961-1029): the static prototype of one
named event. -/
structure EventProto where
  eventName : String
  defGlobReads : List String
  defGlobWrites : List String
  condGlobReads : List String
  condGlobWrites : List String
  seqGlobals : Option (List (String × Val))
  externalVarNames : List String
deriving DecidableEq

structure EndpointState where
  activeEventDict : List (Int × ActiveEventDictElement)
  inactiveEvents : List ActiveEvent
  prototypeEventsDict : List (String × EventProto)
  globSharedReadVars : List (String × Int)
  globSharedWriteVars : List (String × Int)
  lastIdAssigned : Int
  myPriority : Int
  theirPriority : Int
  committedContext : Context
  endpointName : String
  externalGlobals : List String
  externalStore : ExternalStore
deriving DecidableEq

/-- Embeds the per-variable usage check pattern
`(key in counterDict) and (counterDict[key] > 0)` used by admission
(lobby.py lines 1475-1485). -/
def counterPos (d : List (String × Int)) (k : String) : Bool :=
  match dget d k with
  | some n => decide (0 < n)
  | none => false

/-- Embeds the counter-increment loops of admission (lobby.py lines
1588-1601): increment the counter of every footprint variable the endpoint
tracks; untracked variables are trusted to the other endpoint. -/
def incrCounters : List (String × Int) → List String → List (String × Int)
  | d, [] => d
  | d, k :: rest =>
      incrCounters (if dmem d k then dmodify d k (fun n => n + 1) else d) rest

/-- Embeds the counter-decrement loops of `_ActiveEvent.cancelActiveEvent`
(lobby.py lines 1659-1674), accumulating the potentialTransition flag (true
when some counter reached zero). -/
def decrCountersPT : List (String × Int) → List String → Bool →
    List (String × Int) × Bool
  | d, [], pt => (d, pt)
  | d, k :: rest, pt =>
      match dget d k with
      | none => decrCountersPT d rest pt
      | some n => decrCountersPT (dmodify d k (fun m => m - 1)) rest (pt || decide (n - 1 = 0))

/-- Embeds `_ActiveEvent.cancelActiveEvent` (lobby.py lines 1636-1676):
remove the event from the active event dictionary and release its
usage-counter holds.  The DEBUG assert fires when the event is not active;
a `del` on a missing dictionary key would raise KeyError. -/
def ActiveEvent.cancelActiveEvent (st : EndpointState) (ev : ActiveEvent) :
    PyOutcome × Bool × EndpointState :=
  if ev.active = false then (PyOutcome.assertFail, false, st)
  else if dmem st.activeEventDict ev.id = false then (PyOutcome.assertFail, false, st)
  else
    let st1 := { st with activeEventDict := derase st.activeEventDict ev.id }
    let pr := decrCountersPT st1.globSharedReadVars ev.activeGlobReads false
    let pw := decrCountersPT st1.globSharedWriteVars ev.activeGlobWrites pr.2
    (PyOutcome.ok, pw.2,
     { st1 with globSharedReadVars := pr.1, globSharedWriteVars := pw.1 })

structure PostponeResult where
  outcome : PyOutcome
  state : EndpointState
  context : Context
deriving DecidableEq

/-- Embeds `_ActiveEvent.postpone` (lobby.py lines 1352-1386): cancel the
active event (removing it from the dictionary and releasing its counter
holds), mark it inactive, increment its context generation, re-queue it at
the head of the inactive event list and signal the suspended execution with
the invalid context id. -/
def ActiveEvent.postpone (st : EndpointState) (ev : ActiveEvent) (context : Context) :
    PostponeResult :=
  match ActiveEvent.cancelActiveEvent st ev with
  | (PyOutcome.assertFail, _, st1) => ⟨PyOutcome.assertFail, st1, context⟩
  | (PyOutcome.ok, _, st1) =>
      let ev1 := { ev with active := false, contextId := ev.contextId + 1 }
      let st2 := { st1 with inactiveEvents := ev1 :: st1.inactiveEvents }
      ⟨PyOutcome.ok, st2, Context.postpone context⟩

/-- Embeds `_Endpoint._postponeActiveEvent` (lobby.py lines 1911-1935):
tolerantly a no-op when the event id is not registered (the race with a
NOT_ACCEPTED arriving after this side already postponed the event);
otherwise postpone the registered event.  Also returns the context of the
postponed event for observation of its queue. -/
def Endpoint.postponeActiveEvent (st : EndpointState) (activeEventId : Int) :
    PyOutcome × EndpointState × Option Context :=
  match dget st.activeEventDict activeEventId with
  | none => (PyOutcome.ok, st, none)
  | some el =>
      let r := ActiveEvent.postpone st el.actEvent el.eventContext
      (r.outcome, r.state, some r.context)

/-- Loop of `_ActiveEvent._postponeConflictingEvents` (lobby.py lines
1413-1426) over a snapshot of the dictionary keys (Python 2 `.keys()`
returns a fresh list).  Direct indexing on a vanished key would raise
KeyError; this never happens because postponing removes only the processed
key. -/
def postponeKeysLoop (ev : ActiveEvent) : EndpointState → List Int →
    PyOutcome × EndpointState
  | st, [] => (PyOutcome.ok, st)
  | st, k :: rest =>
      match dget st.activeEventDict k with
      | none => (PyOutcome.assertFail, st)
      | some el =>
          if ActiveEvent.conflicts ev el.actEvent then
            match Endpoint.postponeActiveEvent st k with
            | (PyOutcome.ok, st1, _) => postponeKeysLoop ev st1 rest
            | (PyOutcome.assertFail, st1, _) => (PyOutcome.assertFail, st1)
          else postponeKeysLoop ev st rest

def ActiveEvent.postponeConflictingEvents (st : EndpointState) (ev : ActiveEvent) :
    PyOutcome × EndpointState :=
  postponeKeysLoop ev st (dkeys st.activeEventDict)

/-- Embeds the external-footprint collection loops of admission (lobby.py
lines 1490-1505 and 1530-1547): for every footprint variable that is an
external variable of this endpoint, collect the external object id stored in
the committed endpoint globals, skipping uninitialized (None) externals.
The `isinstance(key, numbers.Number)` branches (externals passed as call
arguments) are dead in this program — every footprint key of every prototype
event is a string — and are not modelled. -/
def collectExternalsLoop (st : EndpointState) : List String → List Int → List Int
  | [], acc => acc
  | k :: rest, acc =>
      if st.externalGlobals.contains k then
        match (dget st.committedContext.endGlobals k).bind Val.extIdOf with
        | some extId =>
            collectExternalsLoop st rest (if acc.contains extId then acc else acc ++ [extId])
        | none => collectExternalsLoop st rest acc
      else collectExternalsLoop st rest acc

/-- Embeds `_Context.holdExternalReferences` (lobby.py lines 681-720): for
every external variable name the event may touch, take one reference in the
external store and remember the taken key.  The DEBUG assert fires when the
name is absent from the endpoint globals of the context. -/
def holdExternalReferencesLoop :
    ExternalStore → Context → List String → PyOutcome × ExternalStore × Context
  | store, ctx, [] => (PyOutcome.ok, store, ctx)
  | store, ctx, externalVarName :: rest =>
      if dmem ctx.endGlobals externalVarName = false then
        (PyOutcome.assertFail, store, ctx)
      else
        match (dget ctx.endGlobals externalVarName).bind Val.extIdOf with
        | none => holdExternalReferencesLoop store ctx rest
        | some externalId =>
            match ExternalStore.changeRefCountById store ctx.endpointName externalId 1 with
            | (PyOutcome.assertFail, store1) => (PyOutcome.assertFail, store1, ctx)
            | (PyOutcome.ok, store1) =>
                let ctx1 := { ctx with heldExternalReferences :=
                    ctx.heldExternalReferences ++ [externalIdKey ctx.endpointName externalId] }
                holdExternalReferencesLoop store1 ctx1 rest

structure AddEventResult where
  outcome : PyOutcome
  added : Bool
  eventContext : Option Context
  event : ActiveEvent
  state : EndpointState
deriving DecidableEq

/-- The registration tail of `addEventToEndpointIfCan` after the
reservation-manager gate (lobby.py lines 1588-1632): increment the tracked
usage counters, bump the context generation past INVALID_CONTEXT_ID, copy a
fresh context from the committed context, take external references and
register the event as active.  The registered dictionary element and the
returned context are the same Python object, so both carry the
reference-holding updates. -/
def addEventRegister (st : EndpointState) (ev1 : ActiveEvent) : AddEventResult :=
    let st1 := { st with
        globSharedReadVars := incrCounters st.globSharedReadVars ev1.activeGlobReads,
        globSharedWriteVars := incrCounters st.globSharedWriteVars ev1.activeGlobWrites }
    if dmem st1.activeEventDict ev1.id then ⟨PyOutcome.assertFail, false, none, ev1, st1⟩
    else
      let cid0 := ev1.contextId + 1
      let cid := if cid0 = INVALID_CONTEXT_ID then cid0 + 1 else cid0
      let ev2 := { ev1 with contextId := cid, active := true }
      let eventContext := Context.copyForActiveEvent st1.committedContext ev2 cid
      match holdExternalReferencesLoop st1.externalStore eventContext ev2.externalVarNames with
      | (PyOutcome.ok, store1, eventContext1) =>
          let st2 := { st1 with
            externalStore := store1,
            activeEventDict := dinsert st1.activeEventDict ev2.id ⟨ev2, eventContext1⟩ }
          ⟨PyOutcome.ok, true, some eventContext1, ev2, st2⟩
      | (PyOutcome.assertFail, store1, eventContext1) =>
          let st2 := { st1 with
            externalStore := store1,
            activeEventDict := dinsert st1.activeEventDict ev2.id ⟨ev2, eventContext1⟩ }
          ⟨PyOutcome.assertFail, false, none, ev2, st2⟩

/-- The admission tail of `addEventToEndpointIfCan` after conflict handling
(lobby.py lines 1489-1585): collect the external footprint, consult the
reservation manager (oracle `reserveOk`; the acquisition is short-circuited
when the external footprint is empty) and deny with no further effect when
the acquisition fails; otherwise register the event. -/
def addEventAdmit (st : EndpointState) (ev : ActiveEvent) (reserveOk : Bool) :
    AddEventResult :=
  let externalsToWrite := collectExternalsLoop st ev.activeGlobWrites []
  let externalsToRead := collectExternalsLoop st ev.activeGlobReads []
  let ev1 := { ev with extsToRead := externalsToRead, extsToWrite := externalsToWrite }
  let externalsReserved :=
    if externalsToRead.isEmpty && externalsToWrite.isEmpty then true else reserveOk
  if externalsReserved = false then ⟨PyOutcome.ok, false, none, ev1, st⟩
  else addEventRegister st ev1

/-- The conflict-resolution stage of `addEventToEndpointIfCan` (lobby.py
lines 1465-1487): with `force`, postpone every conflicting active event
first; without it, deny outright — returning the state unchanged — when a
read-footprint variable has a positive tracked write counter or a
write-footprint variable has a positive tracked write or read counter.
Otherwise fall through to the admission tail. -/
def addEventResolveConflicts (st1 : EndpointState) (ev1 : ActiveEvent)
    (reserveOk force : Bool) : AddEventResult :=
  if force then
    match ActiveEvent.postponeConflictingEvents st1 ev1 with
    | (PyOutcome.ok, st2) => addEventAdmit st2 ev1 reserveOk
    | (PyOutcome.assertFail, st2) => ⟨PyOutcome.assertFail, false, none, ev1, st2⟩
  else
    if ev1.activeGlobReads.any (fun k => counterPos st1.globSharedWriteVars k) then
      ⟨PyOutcome.ok, false, none, ev1, st1⟩
    else if ev1.activeGlobWrites.any (fun k =>
        counterPos st1.globSharedWriteVars k || counterPos st1.globSharedReadVars k) then
      ⟨PyOutcome.ok, false, none, ev1, st1⟩
    else addEventAdmit st1 ev1 reserveOk

/-- Embeds `_ActiveEvent.addEventToEndpointIfCan` (lobby.py lines
1429-1632).  The DEBUG assert fires when the event is already active; with
`newId` a fresh id is drawn first (mutating lastIdAssigned even when
admission later fails); then conflicts are resolved and the event admitted
through the two stages above. -/
def ActiveEvent.addEventToEndpointIfCan (st0 : EndpointState) (ev0 : ActiveEvent)
    (reserveOk force newId : Bool) : AddEventResult :=
  if ev0.active then ⟨PyOutcome.assertFail, false, none, ev0, st0⟩
  else
    let p : ActiveEvent × EndpointState :=
      if newId then
        ({ ev0 with id := st0.lastIdAssigned + 2 },
         { st0 with lastIdAssigned := st0.lastIdAssigned + 2 })
      else (ev0, st0)
    addEventResolveConflicts p.2 p.1 reserveOk force

/-! ## Commit path (lobby.py lines 85-101, 723-735, 839-895, 1280-1333,
1963-1998, 2086-2124) -/

/-- Embeds `_deepCopy` (lobby.py lines 85-101): copy every binding of the
source dict into the destination dict, skipping the keys listed in
fieldNamesToSkipCopy (the source FIXME notes this is a by-value copy). -/
def deepCopy : List (String × Val) → List (String × Val) → List String →
    List (String × Val)
  | [], dstDict, _ => dstDict
  | p :: rest, dstDict, fieldNamesToSkipCopy =>
      deepCopy rest
        (if fieldNamesToSkipCopy.contains p.1 then dstDict else dinsert dstDict p.1 p.2)
        fieldNamesToSkipCopy

/-- Embeds `_Context.mergeContextIntoMe` (lobby.py lines 723-735), called on
the committed context: copy all shareds and endpoint globals of the other
context over this one. -/
def Context.mergeContextIntoMe (self other : Context) : Context :=
  { self with
    shareds := deepCopy other.shareds self.shareds [],
    endGlobals := deepCopy other.endGlobals self.endGlobals [] }

/-- The reference-count delta loop of `_Context.commit` (lobby.py lines
861-869). -/
def applyRefCountsLoop : ExternalStore → String → List (ExtKey × Int) →
    PyOutcome × ExternalStore
  | store, _, [] => (PyOutcome.ok, store)
  | store, endpointName, p :: rest =>
      match ExternalStore.changeRefCountById store endpointName (keyToExternalId p.1) p.2 with
      | (PyOutcome.ok, store1) => applyRefCountsLoop store1 endpointName rest
      | (PyOutcome.assertFail, store1) => (PyOutcome.assertFail, store1)

/-- Embeds `_Context._unholdExternalReferences` (lobby.py lines 874-895):
drop the references taken at event start, for the keys of this endpoint. -/
def unholdLoop : ExternalStore → String → List ExtKey → PyOutcome × ExternalStore
  | store, _, [] => (PyOutcome.ok, store)
  | store, endpointName, key :: rest =>
      match getExtIdIfMyEndpoint key endpointName with
      | none => unholdLoop store endpointName rest
      | some myExtId =>
          match ExternalStore.changeRefCountById store endpointName myExtId (-1) with
          | (PyOutcome.ok, store1) => unholdLoop store1 endpointName rest
          | (PyOutcome.assertFail, store1) => (PyOutcome.assertFail, store1)

/-- Embeds `_Context.commit` (lobby.py lines 860-872): apply the pending
reference-count deltas, then unhold the references taken at event start
(which clears heldExternalReferences). -/
def Context.commit (store : ExternalStore) (ctx : Context) :
    PyOutcome × ExternalStore × Context :=
  match applyRefCountsLoop store ctx.endpointName ctx.refCounts with
  | (PyOutcome.assertFail, store1) => (PyOutcome.assertFail, store1, ctx)
  | (PyOutcome.ok, store1) =>
      match unholdLoop store1 ctx.endpointName ctx.heldExternalReferences with
      | (PyOutcome.assertFail, store2) => (PyOutcome.assertFail, store2, ctx)
      | (PyOutcome.ok, store2) =>
          (PyOutcome.ok, store2, { ctx with heldExternalReferences := [] })

/-- The written-externals existence checks of `_Endpoint._commitActiveEvent`
(lobby.py lines 1974-1986): every external written on this endpoint must
still exist in the store; a key of the other endpoint makes the lookup fail
its DEBUG assert. -/
def checkWrittenExternalsLoop (store : ExternalStore) (endpointName : String) :
    List ExtKey → PyOutcome
  | [] => PyOutcome.ok
  | key :: rest =>
      match getExtIdIfMyEndpoint key endpointName with
      | none => PyOutcome.assertFail
      | some extId =>
          match ExternalStore.getExternalObject store endpointName extId with
          | none => PyOutcome.assertFail
          | some _ => checkWrittenExternalsLoop store endpointName rest

/-- Embeds `_Endpoint._commitActiveEvent` (lobby.py lines 1963-1998): check
the written externals, release the reservation-manager locks (collaborator,
no endpoint-state effect), commit the reference-count changes of the
context, merge the context into the committed context and cancel the active
event (releasing its usage-counter holds and removing it from the active
event dictionary). -/
def Endpoint.commitActiveEvent (st : EndpointState) (activeEvent : ActiveEvent)
    (contextToCommit : Context) : PyOutcome × EndpointState :=
  if dmem st.activeEventDict activeEvent.id = false then (PyOutcome.assertFail, st)
  else
    match checkWrittenExternalsLoop st.externalStore st.endpointName
        contextToCommit.writtenToExternalsOnThisEndpoint with
    | PyOutcome.assertFail => (PyOutcome.assertFail, st)
    | PyOutcome.ok =>
        match Context.commit st.externalStore contextToCommit with
        | (PyOutcome.assertFail, store1, _) =>
            (PyOutcome.assertFail, { st with externalStore := store1 })
        | (PyOutcome.ok, store1, context1) =>
            match ActiveEvent.cancelActiveEvent
                { st with
                  externalStore := store1,
                  committedContext := Context.mergeContextIntoMe st.committedContext context1 }
                activeEvent with
            | (PyOutcome.ok, _, st2) => (PyOutcome.ok, st2)
            | (PyOutcome.assertFail, _, st2) => (PyOutcome.assertFail, st2)

inductive CompletedOutcome where
  | completed : CompletedOutcome
  | postponeRaised : CompletedOutcome
  | assertFail : CompletedOutcome
deriving DecidableEq

/-- Embeds `_ActiveEvent.setCompleted` (lobby.py lines 1280-1333): when the
context generation no longer matches the event generation, the event was
postponed in the meantime; _PostponeException is raised with no state
mutation at all.  Otherwise the context is committed.  The returnQueue put,
the release message to the peer and fireOnCompletes are effects on the
caller and the wire, not on the endpoint state modelled here. -/
def ActiveEvent.setCompleted (st : EndpointState) (ev : ActiveEvent) (context : Context) :
    CompletedOutcome × EndpointState :=
  if context.id ≠ some ev.contextId then (CompletedOutcome.postponeRaised, st)
  else
    match Endpoint.commitActiveEvent st ev context with
    | (PyOutcome.ok, st1) => (CompletedOutcome.completed, st1)
    | (PyOutcome.assertFail, st1) => (CompletedOutcome.assertFail, st1)

/-! ## Message reception (lobby.py lines 2298-2511) -/

/-- The context payload of a wire message, as produced by
`_Context.generateEnvironmentData` (lobby.py lines 780-802): the
does-not-exist names, the shareds, the endpoint globals (always sent empty
by `filterEndGlobalsForMsg`) and the sequence globals. -/
structure ContextMsg where
  dnes : List String
  shareds : List (String × Val)
  endGlobals : List (String × Val)
  seqGlobals : List (String × Val)
deriving DecidableEq

/-- Embeds `_Context.updateEnvironmentData` (lobby.py lines 804-823): copy
the received shareds and endpoint globals over the local ones, skipping the
endpoint globals the sender marked does-not-exist, and copy the received
sequence globals.  When the local context has no sequence globals dict the
copy loop body would fault on the first received binding. -/
def Context.updateEnvironmentData (ctx : Context) (contextMsgDict : ContextMsg) :
    PyOutcome × Context :=
  let shareds1 := deepCopy contextMsgDict.shareds ctx.shareds []
  let endGlobals1 := deepCopy contextMsgDict.endGlobals ctx.endGlobals contextMsgDict.dnes
  let ctx1 := { ctx with shareds := shareds1, endGlobals := endGlobals1 }
  match ctx.seqGlobals with
  | some sg =>
      (PyOutcome.ok, { ctx1 with seqGlobals := some (deepCopy contextMsgDict.seqGlobals sg []) })
  | none =>
      if contextMsgDict.seqGlobals.isEmpty then (PyOutcome.ok, ctx1)
      else (PyOutcome.assertFail, ctx1)

/-- Embeds `_Endpoint._processReleaseEventSentinel` (lobby.py lines
2086-2124): the peer completed the event, so update the context of the
registered active event with the received payload and commit it.  A release
for an unregistered event fails the DEBUG asserts. -/
def Endpoint.processReleaseEventSentinel (st : EndpointState) (eventId : Int)
    (contextData : ContextMsg) : PyOutcome × EndpointState :=
  match dget st.activeEventDict eventId with
  | none => (PyOutcome.assertFail, st)
  | some actEventElement =>
      match Context.updateEnvironmentData actEventElement.eventContext contextData with
      | (PyOutcome.assertFail, _) => (PyOutcome.assertFail, st)
      | (PyOutcome.ok, context1) =>
          Endpoint.commitActiveEvent st actEventElement.actEvent context1

/-- Embeds the NOT_ACCEPTED branch of `_Endpoint._msgReceive` (lobby.py
lines 2314-2324): postpone the referenced local event (a silent no-op when
it is no longer registered).  The subsequent `_tryNextEvent` starts a retry
sweep on a separate thread and is a separate step. -/
def Endpoint.msgReceiveNotAccepted (st : EndpointState) (eventId : Int) :
    PyOutcome × EndpointState :=
  let r := Endpoint.postponeActiveEvent st eventId
  (r.1, r.2.1)

/-- Embeds `_Event.generateActiveEvent` (lobby.py lines 1010-1029) together
with `_ActiveEvent.__init__` (lines 1187-1237): build a runtime event from
the prototype, using only the definite reads and writes (the source FIXME
leaves conditional taints out of conflict detection) and drawing a fresh id
from the endpoint. -/
def EventProto.generateActiveEvent (st : EndpointState) (proto : EventProto) :
    ActiveEvent × EndpointState :=
  let newLast := st.lastIdAssigned + 2
  (⟨proto.eventName, proto.defGlobReads, proto.defGlobWrites, proto.seqGlobals,
    newLast, false, 0, [], [], proto.externalVarNames⟩,
   { st with lastIdAssigned := newLast })

/-- Embeds `_Endpoint._iInitiated` (lobby.py lines 2500-2511): id parity
decides which endpoint initiated an event. -/
def Endpoint.iInitiated (st : EndpointState) (actEventId : Int) : Bool :=
  decide (actEventId % 2 = st.lastIdAssigned % 2)

/-- Embeds the first-time-event branch of `_Endpoint._msgReceive` (lobby.py
lines 2405-2498), taken when the received event id is not in the active
event dictionary: build the event from its prototype, admit it with
force exactly when this endpoint has the lower priority (the livelock
rule, line 2455), reply NOT_ACCEPTED on denial (returned as `some eventId`),
and on admission merge the received context into the fresh event context
(the registered dictionary element is the same object).  Execution dispatch
is a separate thread and not modelled. -/
def Endpoint.msgReceiveNewEvent (st : EndpointState) (eventId : Int) (eventName : String)
    (contextData : ContextMsg) (reserveOk : Bool) :
    PyOutcome × Option Int × EndpointState :=
  if Endpoint.iInitiated st eventId then (PyOutcome.assertFail, none, st)
  else
    match dget st.prototypeEventsDict eventName with
    | none => (PyOutcome.assertFail, none, st)
    | some proto =>
        let p := EventProto.generateActiveEvent st proto
        let actEvent := { p.1 with id := eventId }
        let forceAddition := decide (p.2.myPriority < p.2.theirPriority)
        let r := ActiveEvent.addEventToEndpointIfCan p.2 actEvent reserveOk forceAddition false
        if r.outcome = PyOutcome.assertFail then (PyOutcome.assertFail, none, r.state)
        else if r.added = false then (PyOutcome.ok, some eventId, r.state)
        else
          match r.eventContext with
          | none => (PyOutcome.assertFail, none, r.state)
          | some eventContext =>
              match Context.updateEnvironmentData eventContext contextData with
              | (PyOutcome.assertFail, _) => (PyOutcome.assertFail, none, r.state)
              | (PyOutcome.ok, eventContext1) =>
                  let st2 := { r.state with
                    activeEventDict :=
                      dinsert r.state.activeEventDict eventId ⟨r.event, eventContext1⟩ }
                  (PyOutcome.ok, none, st2)

/-- Loop of `_Endpoint._checkNextEvent` (lobby.py lines 2030-2074), with the
exact CPython semantics of iterating a list while deleting from it: the
iterator holds a bare position `itIdx` into the current list, `counter` is
the position used for the deletion of an admitted event, events that became
active in the meantime are skipped, and retry admission is always called
with force False and a fresh id.  The mutated event object stays in the
list slot it occupied.  `fuel` bounds the sweep; the wrapper passes one more
than the list length, which the loop cannot exhaust since the position
grows every step and the list never grows. -/
def Endpoint.checkNextEventLoop (reserveOk : Bool) :
    Nat → EndpointState → Nat → Nat → PyOutcome × EndpointState
  | 0, st, _, _ => (PyOutcome.ok, st)
  | fuel + 1, st, itIdx, counter =>
      if h : itIdx < st.inactiveEvents.length then
        let inactiveEvent := st.inactiveEvents.get ⟨itIdx, h⟩
        if inactiveEvent.active then
          Endpoint.checkNextEventLoop reserveOk fuel st (itIdx + 1) counter
        else
          let r := ActiveEvent.addEventToEndpointIfCan st inactiveEvent reserveOk false true
          if r.outcome = PyOutcome.assertFail then (PyOutcome.assertFail, r.state)
          else
            let st1 := { r.state with
              inactiveEvents := r.state.inactiveEvents.set itIdx r.event }
            if r.added then
              if counter < st1.inactiveEvents.length then
                let st2 := { st1 with
                  inactiveEvents := st1.inactiveEvents.eraseIdx counter }
                Endpoint.checkNextEventLoop reserveOk fuel st2 (itIdx + 1) counter
              else (PyOutcome.assertFail, st1)
            else Endpoint.checkNextEventLoop reserveOk fuel st1 (itIdx + 1) (counter + 1)
      else (PyOutcome.ok, st)

/-- Embeds `_Endpoint._checkNextEvent` (lobby.py lines 2030-2074). -/
def Endpoint.checkNextEvent (st : EndpointState) (reserveOk : Bool) :
    PyOutcome × EndpointState :=
  Endpoint.checkNextEventLoop reserveOk (st.inactiveEvents.length + 1) st 0 0

/-! ## Generic membership lemma for dictionary insertion -/

theorem mem_dinsert {α β : Type} [DecidableEq α] (d : List (α × β)) (k : α) (v : β)
    (p : α × β) (h : p ∈ dinsert d k v) : p ∈ d ∨ p = (k, v) := by
  induction d with
  | nil =>
    simp only [dinsert, List.mem_singleton] at h
    exact Or.inr h
  | cons hd tl ih =>
    obtain ⟨ka, va⟩ := hd
    by_cases h2 : ka = k
    · subst h2
      simp only [dinsert, eq_self_iff_true, if_true, List.mem_cons] at h
      rcases h with h3 | h3
      · exact Or.inr h3
      · exact Or.inl (List.mem_cons_of_mem _ h3)
    · simp only [dinsert, h2, if_false, List.mem_cons] at h
      rcases h with h3 | h3
      · exact Or.inl (h3 ▸ List.mem_cons_self _ _)
      · rcases ih h3 with h4 | h4
        · exact Or.inl (List.mem_cons_of_mem _ h4)
        · exact Or.inr h4

/-! ## Claim C7 -/

/-- Claim C7: for every call changeRefCountById(endpointName, extId, delta)
on the ExternalStore, if no element with that key exists the call fails with
an error rather than proceeding (and the store is unchanged); an update
whose result would be negative fails rather than completing; and after every
successful call the reference count of the touched element is the old count
plus delta and is non-negative — in particular a store whose counts are all
non-negative keeps that property across every successful call. -/
theorem externalStore_changeRefCountById_safety (store : ExternalStore)
    (endpointName : String) (extId howMuch : Int) :
    (dget store.dict (externalIdKey endpointName extId) = none →
      ExternalStore.changeRefCountById store endpointName extId howMuch =
        (PyOutcome.assertFail, store)) ∧
    (∀ el, dget store.dict (externalIdKey endpointName extId) = some el →
      el.referenceCount + howMuch < 0 →
      (ExternalStore.changeRefCountById store endpointName extId howMuch).1 =
        PyOutcome.assertFail) ∧
    (∀ el, dget store.dict (externalIdKey endpointName extId) = some el →
      (ExternalStore.changeRefCountById store endpointName extId howMuch).1 = PyOutcome.ok →
      0 ≤ el.referenceCount + howMuch ∧
      dget (ExternalStore.changeRefCountById store endpointName extId howMuch).2.dict
          (externalIdKey endpointName extId) =
        some { referenceCount := el.referenceCount + howMuch,
               externalObject := el.externalObject }) ∧
    ((∀ p ∈ store.dict, 0 ≤ p.2.referenceCount) →
      (ExternalStore.changeRefCountById store endpointName extId howMuch).1 = PyOutcome.ok →
      ∀ p ∈ (ExternalStore.changeRefCountById store endpointName extId howMuch).2.dict,
        0 ≤ p.2.referenceCount) := by
  refine ⟨fun h => ?_, fun el hel hneg => ?_, fun el hel hok => ?_, fun hnn hok p hp => ?_⟩
  · simp [ExternalStore.changeRefCountById, h]
  · simp [ExternalStore.changeRefCountById, hel, hneg]
  · have hge : ¬ el.referenceCount + howMuch < 0 := by
      by_contra hc
      simp [ExternalStore.changeRefCountById, hel, hc] at hok
    refine ⟨not_lt.mp hge, ?_⟩
    simp [ExternalStore.changeRefCountById, hel, hge, dget_dinsert_self]
  · cases hel : dget store.dict (externalIdKey endpointName extId) with
    | none => simp [ExternalStore.changeRefCountById, hel] at hok
    | some el =>
      have hge : ¬ el.referenceCount + howMuch < 0 := by
        by_contra hc
        simp [ExternalStore.changeRefCountById, hel, hc] at hok
      simp only [ExternalStore.changeRefCountById, hel, if_neg hge] at hp
      rcases mem_dinsert _ _ _ _ hp with hmem | heq
      · exact hnn p hmem
      · subst heq
        exact not_lt.mp hge

/-- Witness for C7 at concrete inputs: a store holding one element with
count 1; the missing-key call fails and leaves the store unchanged, and the
successful decrement by one yields count 0. -/
theorem externalStore_changeRefCountById_safety_witness :
    (ExternalStore.changeRefCountById ⟨[(⟨7, "Lobby"⟩, ⟨1, 7⟩)]⟩ "Lobby" 9 1 =
      (PyOutcome.assertFail, ⟨[(⟨7, "Lobby"⟩, ⟨1, 7⟩)]⟩)) ∧
    ((ExternalStore.changeRefCountById ⟨[(⟨7, "Lobby"⟩, ⟨1, 7⟩)]⟩ "Lobby" 7 (-2)).1 =
      PyOutcome.assertFail) ∧
    (0 ≤ (1 : Int) + (-1) ∧
      dget (ExternalStore.changeRefCountById
          ⟨[(⟨7, "Lobby"⟩, ⟨1, 7⟩)]⟩ "Lobby" 7 (-1)).2.dict (externalIdKey "Lobby" 7) =
        some ⟨0, 7⟩) := by
  refine ⟨?_, ?_, ?_⟩
  · exact (externalStore_changeRefCountById_safety ⟨[(⟨7, "Lobby"⟩, ⟨1, 7⟩)]⟩ "Lobby" 9 1).1
      (by decide)
  · exact (externalStore_changeRefCountById_safety
      ⟨[(⟨7, "Lobby"⟩, ⟨1, 7⟩)]⟩ "Lobby" 7 (-2)).2.1 ⟨1, 7⟩ (by decide) (by decide)
  · exact (externalStore_changeRefCountById_safety
      ⟨[(⟨7, "Lobby"⟩, ⟨1, 7⟩)]⟩ "Lobby" 7 (-1)).2.2.1 ⟨1, 7⟩ (by decide) (by decide)

/-! ## Claim C10 -/

/-- Claim C10: receiving a NOT_ACCEPTED message whose event id is not in the
active event dictionary is a silent no-op: _postponeActiveEvent returns
immediately with no error and the entire endpoint state — the active event
dictionary, the inactive event list and every usage counter included — is
returned unchanged, tolerating the race in which this endpoint already
postponed that event before the rejection of the peer arrived. -/
theorem notAccepted_unknown_event_is_noop (st : EndpointState) (eventId : Int)
    (h : dget st.activeEventDict eventId = none) :
    Endpoint.postponeActiveEvent st eventId = (PyOutcome.ok, st, none) ∧
    Endpoint.msgReceiveNotAccepted st eventId = (PyOutcome.ok, st) := by
  constructor
  · simp [Endpoint.postponeActiveEvent, h]
  · simp [Endpoint.msgReceiveNotAccepted, Endpoint.postponeActiveEvent, h]

/-! ## Concrete fixtures

Concrete states mirroring the generated Lobby endpoint of this repository
(lobby.py lines 3499-3598: counters for 0__username and 6__users, priority 1
against 0, odd event ids, external variable 6__users holding object id 7),
used to instantiate the general theorems. -/

def lobbyStore : ExternalStore := ⟨[(⟨7, "Lobby"⟩, ⟨1, 7⟩)]⟩

def lobbyCommitted : Context :=
  { Context.init "Lobby" with
    shareds := [("0__username", Val.vstr "")],
    endGlobals := [("0__username", Val.vstr ""), ("6__users", Val.vint 7)] }

/-- The prototype of Client_-_-_onCreate (lobby.py lines 2673-2681): definite
writes 1__on_began_session only. -/
def protoClientOnCreate : EventProto :=
  ⟨"Client_-_-_onCreate", [], ["1__on_began_session"], [], [], some [], []⟩

def lobbyState : EndpointState :=
  { activeEventDict := [], inactiveEvents := [],
    prototypeEventsDict := [("Client_-_-_onCreate", protoClientOnCreate)],
    globSharedReadVars := [("0__username", 0), ("6__users", 0)],
    globSharedWriteVars := [("0__username", 0), ("6__users", 0)],
    lastIdAssigned := 1, myPriority := 1, theirPriority := 0,
    committedContext := lobbyCommitted, endpointName := "Lobby",
    externalGlobals := ["6__users"], externalStore := lobbyStore }

/-- A runtime instance of Client_-_-_onCreate as the Lobby admits it after a
message from the Client (even id 0). -/
def evClientOnCreate0 : ActiveEvent :=
  ⟨"Client_-_-_onCreate", [], ["1__on_began_session"], some [], 0, false, 0, [], [], []⟩

/-- Witness for C10 at a concrete input: the Lobby endpoint with no active
events receives NOT_ACCEPTED for event id 0. -/
theorem notAccepted_unknown_event_is_noop_witness :
    Endpoint.postponeActiveEvent lobbyState 0 = (PyOutcome.ok, lobbyState, none) ∧
    Endpoint.msgReceiveNotAccepted lobbyState 0 = (PyOutcome.ok, lobbyState) :=
  notAccepted_unknown_event_is_noop lobbyState 0 (by decide)

/-! ## Claim C9 -/

/-- The context-generation bump of admission (lobby.py lines 1617-1619)
never lands on INVALID_CONTEXT_ID. -/
theorem contextId_bump_ne_invalid (n : Int) :
    (if n + 1 = INVALID_CONTEXT_ID then n + 1 + 1 else n + 1) ≠ INVALID_CONTEXT_ID := by
  unfold INVALID_CONTEXT_ID
  split <;> omega

theorem holdExternalReferencesLoop_id (store : ExternalStore) (ctx : Context)
    (names : List String) :
    (holdExternalReferencesLoop store ctx names).2.2.id = ctx.id := by
  induction names generalizing store ctx with
  | nil => simp [holdExternalReferencesLoop]
  | cons n rest ih =>
    by_cases h : dmem ctx.endGlobals n = false
    · simp [holdExternalReferencesLoop, h]
    · simp only [Bool.not_eq_false] at h
      cases hb : (dget ctx.endGlobals n).bind Val.extIdOf with
      | none => simp [holdExternalReferencesLoop, h, hb, ih]
      | some externalId =>
        cases hc : ExternalStore.changeRefCountById store ctx.endpointName externalId 1 with
        | mk o store1 =>
          cases o
          · simp [holdExternalReferencesLoop, h, hb, hc, ih]
          · simp [holdExternalReferencesLoop, h, hb, hc]

/-- Success shape of the registration tail: an added event carries a fresh
context whose id is the bumped generation of the event. -/
theorem addEventRegister_success_shape (st : EndpointState) (ev1 : ActiveEvent)
    (r : AddEventResult) (heq : addEventRegister st ev1 = r) (hadd : r.added = true) :
    r.event.contextId ≠ INVALID_CONTEXT_ID ∧
    ∃ ectx, r.eventContext = some ectx ∧ ectx.id = some r.event.contextId := by
  simp only [addEventRegister] at heq
  split at heq
  · subst heq
    simp at hadd
  · split at heq
    next store1 ectx1 hhold =>
      subst heq
      refine ⟨contextId_bump_ne_invalid _, ectx1, rfl, ?_⟩
      have h22 := congrArg (fun t : PyOutcome × ExternalStore × Context => t.2.2) hhold
      simp only at h22
      rw [← h22, holdExternalReferencesLoop_id]
      rfl
    next store1 ectx1 hhold =>
      subst heq
      simp at hadd

/-- Success shape of the admission tail: lifts the registration shape
through the reservation gate. -/
theorem addEventAdmit_success_shape (st : EndpointState) (ev : ActiveEvent) (rOk : Bool)
    (r : AddEventResult) (heq : addEventAdmit st ev rOk = r) (hadd : r.added = true) :
    r.event.contextId ≠ INVALID_CONTEXT_ID ∧
    ∃ ectx, r.eventContext = some ectx ∧ ectx.id = some r.event.contextId := by
  simp only [addEventAdmit] at heq
  split at heq
  · rw [if_neg (by decide : ¬(true = false))] at heq
    exact addEventRegister_success_shape _ _ _ heq hadd
  · split at heq
    · subst heq
      simp at hadd
    · exact addEventRegister_success_shape _ _ _ heq hadd

/-- Claim C9: every context created for an admitted active event has an id
distinct from the reserved INVALID_CONTEXT_ID (-1): addEventToEndpointIfCan
increments contextId and skips over -1 before copying the context, so the
sentinel that postponement enqueues on the msgReceivedQueue of a context can
never equal a live context id, and the suspended execution comparing the
dequeued id against its own context id always recognizes postponement. -/
theorem admitted_context_id_distinguishes_postpone (st : EndpointState)
    (ev : ActiveEvent) (reserveOk force newId : Bool) (r : AddEventResult)
    (heq : ActiveEvent.addEventToEndpointIfCan st ev reserveOk force newId = r)
    (hadd : r.added = true) :
    r.event.contextId ≠ INVALID_CONTEXT_ID ∧
    ∃ ectx, r.eventContext = some ectx ∧ ectx.id = some r.event.contextId ∧
      waitCheckRaisesPostpone ectx INVALID_CONTEXT_ID = true := by
  have hcore : ∀ (st1 : EndpointState) (ev1 : ActiveEvent)
      (heq2 : addEventResolveConflicts st1 ev1 reserveOk force = r),
      r.event.contextId ≠ INVALID_CONTEXT_ID ∧
      ∃ ectx, r.eventContext = some ectx ∧ ectx.id = some r.event.contextId := by
    intro st1 ev1 heq2
    simp only [addEventResolveConflicts] at heq2
    split at heq2
    · split at heq2
      next st2 hpost => exact addEventAdmit_success_shape _ _ _ _ heq2 hadd
      next st2 hpost =>
        subst heq2
        simp at hadd
    · split at heq2
      · subst heq2
        simp at hadd
      · split at heq2
        · subst heq2
          simp at hadd
        · exact addEventAdmit_success_shape _ _ _ _ heq2 hadd
  have hmain : r.event.contextId ≠ INVALID_CONTEXT_ID ∧
      ∃ ectx, r.eventContext = some ectx ∧ ectx.id = some r.event.contextId := by
    simp only [ActiveEvent.addEventToEndpointIfCan] at heq
    split at heq
    · subst heq
      simp at hadd
    · exact hcore _ _ heq
  obtain ⟨hne, ectx, hctx, hid⟩ := hmain
  refine ⟨hne, ectx, hctx, hid, ?_⟩
  simp only [waitCheckRaisesPostpone, hid, decide_eq_true_eq]
  intro hc
  exact hne (by injection hc with h2; exact h2.symm)

/-- Witness for C9 at a concrete input: the Lobby endpoint admits the
Client_-_-_onCreate event (id 0) arriving from the peer. -/
theorem admitted_context_id_distinguishes_postpone_witness :
    (ActiveEvent.addEventToEndpointIfCan lobbyState evClientOnCreate0 true false false).event.contextId
        ≠ INVALID_CONTEXT_ID ∧
    ∃ ectx,
      (ActiveEvent.addEventToEndpointIfCan lobbyState evClientOnCreate0 true false false).eventContext
          = some ectx ∧
      ectx.id = some (ActiveEvent.addEventToEndpointIfCan lobbyState evClientOnCreate0 true false false).event.contextId ∧
      waitCheckRaisesPostpone ectx INVALID_CONTEXT_ID = true :=
  admitted_context_id_distinguishes_postpone lobbyState evClientOnCreate0 true false false _
    rfl (by decide)

/-! ## Claim C8 -/

theorem copyKeys_shareds_none (committed : Context) (keys : List String) (acc : Context)
    (v : String) (hs : dget committed.shareds v = none) :
    dget (copyKeys committed keys acc).shareds v = dget acc.shareds v := by
  induction keys generalizing acc with
  | nil => simp [copyKeys]
  | cons k rest ih =>
    simp only [copyKeys]
    rw [ih]
    by_cases hk : k = v
    · subst hk
      simp [copyOneKey, hs]
      cases dget committed.endGlobals k <;> simp
    · simp only [copyOneKey]
      cases dget committed.shareds k with
      | some w => simp [dget_dinsert_ne _ _ _ _ hk]
      | none => cases dget committed.endGlobals k <;> simp

theorem copyKeys_shareds_not_mem (committed : Context) (keys : List String) (acc : Context)
    (v : String) (h : v ∉ keys) :
    dget (copyKeys committed keys acc).shareds v = dget acc.shareds v := by
  induction keys generalizing acc with
  | nil => simp [copyKeys]
  | cons k rest ih =>
    simp only [List.mem_cons, not_or] at h
    simp only [copyKeys]
    rw [ih _ h.2]
    simp only [copyOneKey]
    cases dget committed.shareds k with
    | some w => simp [dget_dinsert_ne _ _ _ _ (Ne.symm h.1)]
    | none => cases dget committed.endGlobals k <;> simp

theorem copyKeys_endGlobals_not_mem (committed : Context) (keys : List String) (acc : Context)
    (v : String) (h : v ∉ keys) :
    dget (copyKeys committed keys acc).endGlobals v = dget acc.endGlobals v := by
  induction keys generalizing acc with
  | nil => simp [copyKeys]
  | cons k rest ih =>
    simp only [List.mem_cons, not_or] at h
    simp only [copyKeys]
    rw [ih _ h.2]
    simp only [copyOneKey]
    cases dget committed.shareds k with
    | some w => simp
    | none =>
      cases dget committed.endGlobals k <;> simp [dget_dinsert_ne _ _ _ _ (Ne.symm h.1)]

theorem copyKeys_endGlobals_shareds_some (committed : Context) (keys : List String)
    (acc : Context) (v : String) (w : Val) (hs : dget committed.shareds v = some w) :
    dget (copyKeys committed keys acc).endGlobals v = dget acc.endGlobals v := by
  induction keys generalizing acc with
  | nil => simp [copyKeys]
  | cons k rest ih =>
    simp only [copyKeys]
    rw [ih]
    by_cases hk : k = v
    · subst hk
      simp [copyOneKey, hs]
    · simp only [copyOneKey]
      cases dget committed.shareds k with
      | some w2 => simp
      | none =>
        cases dget committed.endGlobals k <;> simp [dget_dinsert_ne _ _ _ _ hk]

theorem copyKeys_shareds_mem_some (committed : Context) (keys : List String) (acc : Context)
    (v : String) (w : Val) (h : v ∈ keys) (hs : dget committed.shareds v = some w) :
    dget (copyKeys committed keys acc).shareds v = some w := by
  induction keys generalizing acc with
  | nil => simp [copyKeys] at h
  | cons k rest ih =>
    simp only [copyKeys]
    by_cases hr : v ∈ rest
    · exact ih _ hr
    · simp only [List.mem_cons] at h
      rcases h with h | h
      · subst h
        rw [copyKeys_shareds_not_mem _ _ _ _ hr]
        simp [copyOneKey, hs, dget_dinsert_self]
      · exact absurd h hr

theorem copyKeys_endGlobals_mem_end (committed : Context) (keys : List String) (acc : Context)
    (v : String) (w : Val) (h : v ∈ keys) (hs : dget committed.shareds v = none)
    (he : dget committed.endGlobals v = some w) :
    dget (copyKeys committed keys acc).endGlobals v = some w := by
  induction keys generalizing acc with
  | nil => simp [copyKeys] at h
  | cons k rest ih =>
    simp only [copyKeys]
    by_cases hr : v ∈ rest
    · exact ih _ hr
    · simp only [List.mem_cons] at h
      rcases h with h | h
      · subst h
        rw [copyKeys_endGlobals_not_mem _ _ _ _ hr]
        simp [copyOneKey, hs, he, dget_dinsert_self]
      · exact absurd h hr

theorem copyKeys_endGlobals_mem_dne (committed : Context) (keys : List String) (acc : Context)
    (v : String) (h : v ∈ keys) (hs : dget committed.shareds v = none)
    (he : dget committed.endGlobals v = none) :
    dget (copyKeys committed keys acc).endGlobals v = some DNE_PLACE_HOLDER := by
  induction keys generalizing acc with
  | nil => simp [copyKeys] at h
  | cons k rest ih =>
    simp only [copyKeys]
    by_cases hr : v ∈ rest
    · exact ih _ hr
    · simp only [List.mem_cons] at h
      rcases h with h | h
      · subst h
        rw [copyKeys_endGlobals_not_mem _ _ _ _ hr]
        simp [copyOneKey, hs, he, dget_dinsert_self]
      · exact absurd h hr

/-- Claim C8: copyForActiveEvent returns a fresh Context whose shareds and
endGlobals together contain exactly the variables of the combined read and
write footprint of the event: each footprint variable owned by the committed
context keeps its committed value (from shareds, or else from endGlobals),
each footprint variable the committed context does not own is bound in
endGlobals to the does-not-exist placeholder, and no variable outside the
footprint is copied. -/
theorem copyForActiveEvent_footprint (committed : Context) (ev : ActiveEvent)
    (contextId : Int) (v : String) :
    (v ∉ ev.activeGlobReads → v ∉ ev.activeGlobWrites →
      dget (Context.copyForActiveEvent committed ev contextId).shareds v = none ∧
      dget (Context.copyForActiveEvent committed ev contextId).endGlobals v = none) ∧
    (v ∈ ev.activeGlobReads ∨ v ∈ ev.activeGlobWrites →
      (∀ w, dget committed.shareds v = some w →
        dget (Context.copyForActiveEvent committed ev contextId).shareds v = some w ∧
        dget (Context.copyForActiveEvent committed ev contextId).endGlobals v = none) ∧
      (∀ w, dget committed.shareds v = none → dget committed.endGlobals v = some w →
        dget (Context.copyForActiveEvent committed ev contextId).endGlobals v = some w ∧
        dget (Context.copyForActiveEvent committed ev contextId).shareds v = none) ∧
      (dget committed.shareds v = none → dget committed.endGlobals v = none →
        dget (Context.copyForActiveEvent committed ev contextId).endGlobals v =
          some DNE_PLACE_HOLDER ∧
        dget (Context.copyForActiveEvent committed ev contextId).shareds v = none)) := by
  constructor
  · intro hnr hnw
    simp only [Context.copyForActiveEvent]
    constructor
    · rw [copyKeys_shareds_not_mem _ _ _ _ hnw, copyKeys_shareds_not_mem _ _ _ _ hnr]
      rfl
    · rw [copyKeys_endGlobals_not_mem _ _ _ _ hnw, copyKeys_endGlobals_not_mem _ _ _ _ hnr]
      rfl
  · intro hmem
    refine ⟨fun w hs => ?_, fun w hs he => ?_, fun hs he => ?_⟩
    · constructor
      · simp only [Context.copyForActiveEvent]
        rcases hmem with hr | hw
        · by_cases hw2 : v ∈ ev.activeGlobWrites
          · exact copyKeys_shareds_mem_some _ _ _ _ _ hw2 hs
          · rw [copyKeys_shareds_not_mem _ _ _ _ hw2]
            exact copyKeys_shareds_mem_some _ _ _ _ _ hr hs
        · exact copyKeys_shareds_mem_some _ _ _ _ _ hw hs
      · simp only [Context.copyForActiveEvent]
        rw [copyKeys_endGlobals_shareds_some _ _ _ _ _ hs,
            copyKeys_endGlobals_shareds_some _ _ _ _ _ hs]
        rfl
    · constructor
      · simp only [Context.copyForActiveEvent]
        rcases hmem with hr | hw
        · by_cases hw2 : v ∈ ev.activeGlobWrites
          · exact copyKeys_endGlobals_mem_end _ _ _ _ _ hw2 hs he
          · rw [copyKeys_endGlobals_not_mem _ _ _ _ hw2]
            exact copyKeys_endGlobals_mem_end _ _ _ _ _ hr hs he
        · exact copyKeys_endGlobals_mem_end _ _ _ _ _ hw hs he
      · simp only [Context.copyForActiveEvent]
        rw [copyKeys_shareds_none _ _ _ _ hs, copyKeys_shareds_none _ _ _ _ hs]
        rfl
    · constructor
      · simp only [Context.copyForActiveEvent]
        rcases hmem with hr | hw
        · by_cases hw2 : v ∈ ev.activeGlobWrites
          · exact copyKeys_endGlobals_mem_dne _ _ _ _ hw2 hs he
          · rw [copyKeys_endGlobals_not_mem _ _ _ _ hw2]
            exact copyKeys_endGlobals_mem_dne _ _ _ _ hr hs he
        · exact copyKeys_endGlobals_mem_dne _ _ _ _ hw hs he
      · simp only [Context.copyForActiveEvent]
        rw [copyKeys_shareds_none _ _ _ _ hs, copyKeys_shareds_none _ _ _ _ hs]
        rfl

/-- Witness for C8 at a concrete input: copying for an event that reads
0__username and 1__on_began_session and writes 0__username from the Lobby
committed context: the shared variable keeps its committed value, the
unowned variable gets the placeholder, and an untouched variable is not
copied. -/
theorem copyForActiveEvent_footprint_witness :
    (dget (Context.copyForActiveEvent lobbyCommitted
        ⟨"e", ["0__username", "1__on_began_session"], ["0__username"], some [], 2, false, 0,
          [], [], []⟩ 1).shareds "0__username" = some (Val.vstr "") ∧
      dget (Context.copyForActiveEvent lobbyCommitted
        ⟨"e", ["0__username", "1__on_began_session"], ["0__username"], some [], 2, false, 0,
          [], [], []⟩ 1).endGlobals "0__username" = none) ∧
    (dget (Context.copyForActiveEvent lobbyCommitted
        ⟨"e", ["0__username", "1__on_began_session"], ["0__username"], some [], 2, false, 0,
          [], [], []⟩ 1).endGlobals "1__on_began_session" = some DNE_PLACE_HOLDER ∧
      dget (Context.copyForActiveEvent lobbyCommitted
        ⟨"e", ["0__username", "1__on_began_session"], ["0__username"], some [], 2, false, 0,
          [], [], []⟩ 1).shareds "1__on_began_session" = none) ∧
    (dget (Context.copyForActiveEvent lobbyCommitted
        ⟨"e", ["0__username", "1__on_began_session"], ["0__username"], some [], 2, false, 0,
          [], [], []⟩ 1).shareds "6__users" = none ∧
      dget (Context.copyForActiveEvent lobbyCommitted
        ⟨"e", ["0__username", "1__on_began_session"], ["0__username"], some [], 2, false, 0,
          [], [], []⟩ 1).endGlobals "6__users" = none) :=
  ⟨((copyForActiveEvent_footprint lobbyCommitted _ 1 "0__username").2
      (by decide)).1 (Val.vstr "") (by decide),
   ((copyForActiveEvent_footprint lobbyCommitted _ 1 "1__on_began_session").2
      (by decide)).2.2 (by decide) (by decide),
   (copyForActiveEvent_footprint lobbyCommitted _ 1 "6__users").1
      (by decide) (by decide)⟩

/-! ## Counter lemmas -/

theorem incrCounters_dget (d : List (String × Int)) (keys : List String) (v : String)
    (hnd : keys.Nodup) :
    dget (incrCounters d keys) v =
      if v ∈ keys then (dget d v).map (fun n => n + 1) else dget d v := by
  induction keys generalizing d with
  | nil => simp [incrCounters]
  | cons k rest ih =>
    simp only [List.nodup_cons] at hnd
    simp only [incrCounters]
    rw [ih _ hnd.2]
    by_cases hv : v = k
    · subst hv
      have hvr : v ∉ rest := hnd.1
      simp only [hvr, if_false, List.mem_cons, true_or, if_true]
      by_cases hm : dmem d v
      · simp only [hm, if_true, dget_dmodify_self]
      · simp only [hm, Bool.false_eq_true, if_false]
        simp only [dmem, Option.isSome] at hm
        cases hg : dget d v with
        | some n => rw [hg] at hm; simp at hm
        | none => simp
    · by_cases hr : v ∈ rest
      · simp only [hr, if_true, List.mem_cons, or_true]
        by_cases hm : dmem d k
        · simp [hm, dget_dmodify_ne _ _ _ _ (fun h => hv h.symm)]
        · simp [hm]
      · have : v ∉ k :: rest := by simp [hv, hr]
        simp only [hr, if_false, this, if_false]
        by_cases hm : dmem d k
        · simp [hm, dget_dmodify_ne _ _ _ _ (fun h => hv h.symm)]
        · simp [hm]

theorem decrCountersPT_dget (d : List (String × Int)) (keys : List String) (pt : Bool)
    (v : String) (hnd : keys.Nodup) :
    dget (decrCountersPT d keys pt).1 v =
      if v ∈ keys then (dget d v).map (fun n => n - 1) else dget d v := by
  induction keys generalizing d pt with
  | nil => simp [decrCountersPT]
  | cons k rest ih =>
    simp only [List.nodup_cons] at hnd
    simp only [decrCountersPT]
    cases hk : dget d k with
    | none =>
      rw [ih _ _ hnd.2]
      by_cases hv : v = k
      · subst hv
        simp [hnd.1, hk]
      · by_cases hr : v ∈ rest
        · simp [hr]
        · have : v ∉ k :: rest := by simp [hv, hr]
          simp [hr, this]
    | some n =>
      rw [ih _ _ hnd.2]
      by_cases hv : v = k
      · subst hv
        simp [hnd.1, dget_dmodify_self, hk]
      · by_cases hr : v ∈ rest
        · simp [hr, dget_dmodify_ne _ _ _ _ (fun h => hv h.symm)]
        · have : v ∉ k :: rest := by simp [hv, hr]
          simp [hr, this, dget_dmodify_ne _ _ _ _ (fun h => hv h.symm)]

theorem dkeys_incrCounters (d : List (String × Int)) (keys : List String) :
    dkeys (incrCounters d keys) = dkeys d := by
  induction keys generalizing d with
  | nil => simp [incrCounters]
  | cons k rest ih =>
    simp only [incrCounters]
    rw [ih]
    by_cases hm : dmem d k
    · simp [hm, dkeys_dmodify]
    · simp [hm]

theorem dkeys_decrCountersPT (d : List (String × Int)) (keys : List String) (pt : Bool) :
    dkeys (decrCountersPT d keys pt).1 = dkeys d := by
  induction keys generalizing d pt with
  | nil => simp [decrCountersPT]
  | cons k rest ih =>
    simp only [decrCountersPT]
    cases hk : dget d k with
    | none => rw [ih]
    | some n => rw [ih, dkeys_dmodify]

/-! ## Claim C6 -/

/-- Claim C6: postponing a registered active event increments its context
generation, removes it from the active event dictionary while decrementing
the tracked usage counters of its footprint, re-inserts the updated event at
the head of the inactive event list, and enqueues INVALID_CONTEXT_ID on the
msgReceivedQueue of its context — which a suspended execution whose live
context id is never the invalid id observes as a raised postpone signal,
never as a completed resumption. -/
theorem postponement_effects (st : EndpointState) (activeEventId : Int)
    (el : ActiveEventDictElement)
    (hget : dget st.activeEventDict activeEventId = some el)
    (hact : el.actEvent.active = true)
    (hid : el.actEvent.id = activeEventId)
    (hndk : (dkeys st.activeEventDict).Nodup)
    (hndr : el.actEvent.activeGlobReads.Nodup)
    (hndw : el.actEvent.activeGlobWrites.Nodup) :
    ∃ st2 ctx2,
      Endpoint.postponeActiveEvent st activeEventId = (PyOutcome.ok, st2, some ctx2) ∧
      st2.inactiveEvents =
        { el.actEvent with active := false, contextId := el.actEvent.contextId + 1 }
          :: st.inactiveEvents ∧
      dget st2.activeEventDict activeEventId = none ∧
      (∀ v, dget st2.globSharedReadVars v =
        if v ∈ el.actEvent.activeGlobReads
        then (dget st.globSharedReadVars v).map (fun n => n - 1)
        else dget st.globSharedReadVars v) ∧
      (∀ v, dget st2.globSharedWriteVars v =
        if v ∈ el.actEvent.activeGlobWrites
        then (dget st.globSharedWriteVars v).map (fun n => n - 1)
        else dget st.globSharedWriteVars v) ∧
      ctx2.msgReceivedQueue = el.eventContext.msgReceivedQueue ++ [INVALID_CONTEXT_ID] ∧
      ctx2.id = el.eventContext.id ∧
      (∀ n, el.eventContext.id = some n → n ≠ INVALID_CONTEXT_ID →
        waitCheckRaisesPostpone ctx2 INVALID_CONTEXT_ID = true) := by
  have hmem : dmem st.activeEventDict el.actEvent.id = true := by
    rw [hid]
    simp [dmem, hget]
  simp only [Endpoint.postponeActiveEvent, hget, ActiveEvent.postpone,
    ActiveEvent.cancelActiveEvent, hact, hmem]
  simp only [Bool.true_eq_false, Bool.false_eq_true, if_false]
  refine ⟨_, _, rfl, by simp, ?_, ?_, ?_, ?_, ?_, ?_⟩
  · rw [hid]
    exact dget_derase_self _ _ hndk
  · intro v
    exact decrCountersPT_dget _ _ _ _ hndr
  · intro v
    exact decrCountersPT_dget _ _ _ _ hndw
  · simp [Context.postpone, Context.signalQueue]
  · simp [Context.postpone, Context.signalQueue]
  · intro n hn hne
    simp only [Context.postpone, Context.signalQueue, waitCheckRaisesPostpone, hn,
      decide_eq_true_eq, ne_eq, Option.some.injEq]
    exact fun hc => hne hc.symm

def ctxActive1 : Context := { Context.init "Lobby" with id := some 1, seqGlobals := some [] }

def elClientOnCreate : ActiveEventDictElement :=
  ⟨{ evClientOnCreate0 with active := true, contextId := 1 }, ctxActive1⟩

def lobbyStateWithActive : EndpointState :=
  { lobbyState with activeEventDict := [(0, elClientOnCreate)] }

/-- Witness for C6 at a concrete input: the Lobby endpoint postpones its
registered active event 0. -/
theorem postponement_effects_witness :
    ∃ st2 ctx2,
      Endpoint.postponeActiveEvent lobbyStateWithActive 0 = (PyOutcome.ok, st2, some ctx2) ∧
      st2.inactiveEvents =
        { elClientOnCreate.actEvent with
          active := false, contextId := elClientOnCreate.actEvent.contextId + 1 }
          :: lobbyStateWithActive.inactiveEvents ∧
      dget st2.activeEventDict 0 = none ∧
      (∀ v, dget st2.globSharedReadVars v =
        if v ∈ elClientOnCreate.actEvent.activeGlobReads
        then (dget lobbyStateWithActive.globSharedReadVars v).map (fun n => n - 1)
        else dget lobbyStateWithActive.globSharedReadVars v) ∧
      (∀ v, dget st2.globSharedWriteVars v =
        if v ∈ elClientOnCreate.actEvent.activeGlobWrites
        then (dget lobbyStateWithActive.globSharedWriteVars v).map (fun n => n - 1)
        else dget lobbyStateWithActive.globSharedWriteVars v) ∧
      ctx2.msgReceivedQueue =
        elClientOnCreate.eventContext.msgReceivedQueue ++ [INVALID_CONTEXT_ID] ∧
      ctx2.id = elClientOnCreate.eventContext.id ∧
      (∀ n, elClientOnCreate.eventContext.id = some n → n ≠ INVALID_CONTEXT_ID →
        waitCheckRaisesPostpone ctx2 INVALID_CONTEXT_ID = true) :=
  postponement_effects lobbyStateWithActive 0 elClientOnCreate (by decide) (by decide)
    (by decide) (by decide) (by decide) (by decide)

/-! ## Claim C4 -/

/-- Claim C4: with force false, addEventToEndpointIfCan denies admission —
returning added false with no context — whenever some variable of the read
footprint of the event has a positive tracked write-usage counter, or some
variable of its write footprint has a positive tracked write- or read-usage
counter; on such a denial no usage counter changes, no fresh context is
created, the event is not registered in the active event dictionary, and the
committed context and external store are untouched. -/
theorem nonforced_admission_denial (st : EndpointState) (ev : ActiveEvent)
    (reserveOk newId : Bool) (r : AddEventResult)
    (heq : ActiveEvent.addEventToEndpointIfCan st ev reserveOk false newId = r)
    (hact : ev.active = false)
    (hden : (ev.activeGlobReads.any (fun k => counterPos st.globSharedWriteVars k) ||
        ev.activeGlobWrites.any (fun k =>
          counterPos st.globSharedWriteVars k || counterPos st.globSharedReadVars k)) = true) :
    r.outcome = PyOutcome.ok ∧ r.added = false ∧ r.eventContext = none ∧
    r.state.globSharedReadVars = st.globSharedReadVars ∧
    r.state.globSharedWriteVars = st.globSharedWriteVars ∧
    r.state.activeEventDict = st.activeEventDict ∧
    r.state.inactiveEvents = st.inactiveEvents ∧
    r.state.committedContext = st.committedContext ∧
    r.state.externalStore = st.externalStore := by
  subst heq
  simp only [ActiveEvent.addEventToEndpointIfCan, hact, Bool.false_eq_true, if_false,
    addEventResolveConflicts]
  cases newId
  · simp only [Bool.false_eq_true, if_false]
    rcases Bool.or_eq_true_iff.mp hden with h1 | h2
    · simp [h1]
    · by_cases h1 : ev.activeGlobReads.any
          (fun k => counterPos st.globSharedWriteVars k) = true
      · simp [h1]
      · simp [h1, h2]
  · simp only [if_true]
    rcases Bool.or_eq_true_iff.mp hden with h1 | h2
    · simp [h1]
    · by_cases h1 : ev.activeGlobReads.any
          (fun k => counterPos st.globSharedWriteVars k) = true
      · simp [h1]
      · simp [h1, h2]

/-- Witness for C4 at a concrete input: the Lobby endpoint with a positive
write counter on 0__username denies an event reading 0__username, with no
side effect. -/
theorem nonforced_admission_denial_witness :
    (ActiveEvent.addEventToEndpointIfCan
        { lobbyState with globSharedWriteVars := [("0__username", 1), ("6__users", 0)] }
        ⟨"e", ["0__username"], [], some [], 4, false, 0, [], [], []⟩ true false false).outcome
      = PyOutcome.ok ∧
    (ActiveEvent.addEventToEndpointIfCan
        { lobbyState with globSharedWriteVars := [("0__username", 1), ("6__users", 0)] }
        ⟨"e", ["0__username"], [], some [], 4, false, 0, [], [], []⟩ true false false).added = false ∧
    (ActiveEvent.addEventToEndpointIfCan
        { lobbyState with globSharedWriteVars := [("0__username", 1), ("6__users", 0)] }
        ⟨"e", ["0__username"], [], some [], 4, false, 0, [], [], []⟩ true false false).eventContext
      = none ∧
    (ActiveEvent.addEventToEndpointIfCan
        { lobbyState with globSharedWriteVars := [("0__username", 1), ("6__users", 0)] }
        ⟨"e", ["0__username"], [], some [], 4, false, 0, [], [], []⟩ true
        false false).state.globSharedReadVars =
      [("0__username", 0), ("6__users", 0)] := by
  have h := nonforced_admission_denial
    { lobbyState with globSharedWriteVars := [("0__username", 1), ("6__users", 0)] }
    ⟨"e", ["0__username"], [], some [], 4, false, 0, [], [], []⟩ true false _
    rfl (by decide) (by decide)
  exact ⟨h.1, h.2.1, h.2.2.1, h.2.2.2.1⟩

/-! ## Claim C2 -/

theorem context_commit_preserves_dicts (store : ExternalStore) (ctx : Context) :
    (Context.commit store ctx).2.2.shareds = ctx.shareds ∧
    (Context.commit store ctx).2.2.endGlobals = ctx.endGlobals ∧
    (Context.commit store ctx).2.2.id = ctx.id := by
  unfold Context.commit
  split
  · simp
  · split
    · simp
    · simp

theorem cancelActiveEvent_committedContext (st : EndpointState) (ev : ActiveEvent) :
    (ActiveEvent.cancelActiveEvent st ev).2.2.committedContext = st.committedContext := by
  unfold ActiveEvent.cancelActiveEvent
  split
  · rfl
  · split
    · rfl
    · rfl

theorem commitActiveEvent_ok_merges (st : EndpointState) (ev : ActiveEvent) (ctx : Context)
    (st1 : EndpointState)
    (heq : Endpoint.commitActiveEvent st ev ctx = (PyOutcome.ok, st1)) :
    st1.committedContext.shareds = deepCopy ctx.shareds st.committedContext.shareds [] ∧
    st1.committedContext.endGlobals = deepCopy ctx.endGlobals st.committedContext.endGlobals [] := by
  unfold Endpoint.commitActiveEvent at heq
  split at heq
  · exact absurd (congrArg Prod.fst heq) (by simp)
  · split at heq
    · exact absurd (congrArg Prod.fst heq) (by simp)
    · split at heq
      next store1 hcommit => exact absurd (congrArg Prod.fst heq) (by simp)
      next store1 context1 hcommit =>
        split at heq
        next pt st2 hcancel =>
          have hst : st1 = st2 := by
            have := congrArg Prod.snd heq
            simpa using this.symm
          subst hst
          have hcc := congrArg (fun t : PyOutcome × Bool × EndpointState =>
            t.2.2.committedContext) hcancel
          simp only at hcc
          rw [cancelActiveEvent_committedContext] at hcc
          have hdicts := context_commit_preserves_dicts st.externalStore ctx
          have hc1 := congrArg (fun t : PyOutcome × ExternalStore × Context => t.2.2) hcommit
          simp only at hc1
          rw [← hcc]
          simp only [Context.mergeContextIntoMe]
          rw [← hc1, hdicts.1, hdicts.2.1]
          exact ⟨rfl, rfl⟩
        next pt st2 hcancel => exact absurd (congrArg Prod.fst heq) (by simp)

/-- Claim C2: a context is merged into the committed context of the endpoint
exactly when its generation id equals the current contextId of the owning
active event at commit time: on a mismatch setCompleted raises the postpone
outcome and returns the whole endpoint state — committed context, active
event dictionary and usage counters included — unchanged, with no partial
mutation; on a match (and no fail-fast assert) it completes and the
committed context receives exactly the merge of the context. -/
theorem setCompleted_commit_atomicity (st : EndpointState) (ev : ActiveEvent)
    (context : Context) (r : CompletedOutcome × EndpointState)
    (heq : ActiveEvent.setCompleted st ev context = r) :
    (context.id ≠ some ev.contextId → r = (CompletedOutcome.postponeRaised, st)) ∧
    (r.1 = CompletedOutcome.completed → context.id = some ev.contextId) ∧
    (context.id = some ev.contextId → r.1 ≠ CompletedOutcome.assertFail →
      r.1 = CompletedOutcome.completed ∧
      r.2.committedContext.shareds = deepCopy context.shareds st.committedContext.shareds [] ∧
      r.2.committedContext.endGlobals =
        deepCopy context.endGlobals st.committedContext.endGlobals []) := by
  refine ⟨fun hne => ?_, fun hcomp => ?_, fun hmatch hnofail => ?_⟩
  · rw [← heq]
    simp [ActiveEvent.setCompleted, hne]
  · by_cases h : context.id = some ev.contextId
    · exact h
    · rw [← heq] at hcomp
      simp [ActiveEvent.setCompleted, h] at hcomp
  · subst heq
    simp only [ActiveEvent.setCompleted, hmatch, ne_eq, not_true_eq_false,
      if_false] at hnofail ⊢
    cases hc : Endpoint.commitActiveEvent st ev context with
    | mk o st1 =>
      cases o with
      | ok =>
        obtain ⟨h1, h2⟩ := commitActiveEvent_ok_merges st ev context st1 hc
        exact ⟨rfl, h1, h2⟩
      | assertFail =>
        rw [hc] at hnofail
        exact absurd rfl hnofail

/-- Witness for C2 at concrete inputs: on the Lobby endpoint with registered
event 0 at generation 1, committing a context of stale generation 99 raises
postpone and changes nothing, while committing the matching context merges
it. -/
theorem setCompleted_commit_atomicity_witness :
    ActiveEvent.setCompleted lobbyStateWithActive elClientOnCreate.actEvent
        { ctxActive1 with id := some 99 } =
      (CompletedOutcome.postponeRaised, lobbyStateWithActive) ∧
    ((ActiveEvent.setCompleted lobbyStateWithActive elClientOnCreate.actEvent ctxActive1).1 =
        CompletedOutcome.completed ∧
      (ActiveEvent.setCompleted lobbyStateWithActive
          elClientOnCreate.actEvent ctxActive1).2.committedContext.shareds =
        deepCopy ctxActive1.shareds lobbyStateWithActive.committedContext.shareds [] ∧
      (ActiveEvent.setCompleted lobbyStateWithActive
          elClientOnCreate.actEvent ctxActive1).2.committedContext.endGlobals =
        deepCopy ctxActive1.endGlobals lobbyStateWithActive.committedContext.endGlobals []) :=
  ⟨(setCompleted_commit_atomicity lobbyStateWithActive elClientOnCreate.actEvent
      { ctxActive1 with id := some 99 } _ rfl).1 (by decide),
   (setCompleted_commit_atomicity lobbyStateWithActive elClientOnCreate.actEvent
      ctxActive1 _ rfl).2.2 (by decide) (by decide)⟩

/-! ## Postponement-loop machinery (shared by the forced-admission and
invariant theorems) -/

/-- The basic well-formedness of the active event dictionary: keys are
unique and each element is an active event registered under its own id. -/
def DictInv (st : EndpointState) : Prop :=
  (dkeys st.activeEventDict).Nodup ∧
  ∀ p ∈ st.activeEventDict, p.2.actEvent.active = true ∧ p.2.actEvent.id = p.1

theorem dget_mem {α β : Type} [DecidableEq α] (d : List (α × β)) (k : α) (v : β)
    (h : dget d k = some v) : (k, v) ∈ d := by
  induction d with
  | nil => simp [dget] at h
  | cons hd tl ih =>
    obtain ⟨ka, va⟩ := hd
    by_cases h2 : ka = k
    · subst h2
      simp only [dget, eq_self_iff_true, if_true, Option.some.injEq] at h
      subst h
      exact List.mem_cons_self _ _
    · simp only [dget, if_neg h2] at h
      exact List.mem_cons_of_mem _ (ih h)

theorem mem_derase_sub {α β : Type} [DecidableEq α] (d : List (α × β)) (k : α)
    (p : α × β) (h : p ∈ derase d k) : p ∈ d := by
  induction d with
  | nil => simp [derase] at h
  | cons hd tl ih =>
    obtain ⟨ka, va⟩ := hd
    by_cases h2 : ka = k
    · simp only [derase, if_pos h2] at h
      exact List.mem_cons_of_mem _ h
    · simp only [derase, if_neg h2, List.mem_cons] at h
      rcases h with h | h
      · exact h ▸ List.mem_cons_self _ _
      · exact List.mem_cons_of_mem _ (ih h)

theorem dget_derase_of_none {α β : Type} [DecidableEq α] (d : List (α × β)) (k k2 : α)
    (h : dget d k = none) : dget (derase d k2) k = none := by
  induction d with
  | nil => simp [derase, dget]
  | cons hd tl ih =>
    obtain ⟨ka, va⟩ := hd
    by_cases h2 : ka = k
    · simp [dget, h2] at h
    · simp only [dget, if_neg h2] at h
      by_cases h3 : ka = k2
      · simp [derase, h3, h]
      · simp [derase, h3, dget, h2, ih h]

/-- Effect of `_Endpoint._postponeActiveEvent` on a registered event, under
the dictionary invariant: success, the dictionary loses exactly that key,
and the configuration fields of the endpoint are untouched. -/
theorem postponeActiveEvent_registered (st : EndpointState) (k : Int)
    (el : ActiveEventDictElement) (hinv : DictInv st)
    (hget : dget st.activeEventDict k = some el) :
    (Endpoint.postponeActiveEvent st k).1 = PyOutcome.ok ∧
    (Endpoint.postponeActiveEvent st k).2.1.activeEventDict = derase st.activeEventDict k ∧
    (Endpoint.postponeActiveEvent st k).2.1.committedContext = st.committedContext ∧
    (Endpoint.postponeActiveEvent st k).2.1.externalGlobals = st.externalGlobals ∧
    (Endpoint.postponeActiveEvent st k).2.1.externalStore = st.externalStore ∧
    (Endpoint.postponeActiveEvent st k).2.1.endpointName = st.endpointName ∧
    (Endpoint.postponeActiveEvent st k).2.1.lastIdAssigned = st.lastIdAssigned ∧
    (Endpoint.postponeActiveEvent st k).2.1.myPriority = st.myPriority ∧
    (Endpoint.postponeActiveEvent st k).2.1.theirPriority = st.theirPriority ∧
    (Endpoint.postponeActiveEvent st k).2.1.prototypeEventsDict = st.prototypeEventsDict := by
  have hp := hinv.2 (k, el) (dget_mem _ _ _ hget)
  simp only at hp
  obtain ⟨hel1, hel2⟩ := hp
  have hmem : dmem st.activeEventDict k = true := by
    simp [dmem, hget]
  refine ⟨?_, ?_, ?_, ?_, ?_, ?_, ?_, ?_, ?_, ?_⟩ <;>
    simp [Endpoint.postponeActiveEvent, hget, ActiveEvent.postpone,
      ActiveEvent.cancelActiveEvent, hel1, hmem, hel2]

/-- The dictionary invariant survives erasing a key. -/
theorem dictInv_derase (st : EndpointState) (k : Int) (hinv : DictInv st) (st2 : EndpointState)
    (hdict : st2.activeEventDict = derase st.activeEventDict k) : DictInv st2 := by
  constructor
  · rw [hdict]
    exact nodup_dkeys_derase _ _ hinv.1
  · intro p hp
    rw [hdict] at hp
    exact hinv.2 p (mem_derase_sub _ _ _ hp)

theorem dget_some_of_derase {α β : Type} [DecidableEq α] (d : List (α × β)) (k k2 : α)
    (el2 : β) (hnd : (dkeys d).Nodup) (h : dget (derase d k) k2 = some el2) :
    dget d k2 = some el2 := by
  by_cases hk : k = k2
  · subst hk
    rw [dget_derase_self _ _ hnd] at h
    exact absurd h (by simp)
  · rw [dget_derase_ne _ _ _ hk hnd] at h
    exact h

/-- Behavior of the snapshot loop of `_postponeConflictingEvents` under the
dictionary invariant: it succeeds, preserves the invariant and the
configuration fields, only removes dictionary entries, and removes every
snapshot entry whose event conflicts with the incoming one. -/
theorem postponeKeysLoop_spec (ev : ActiveEvent) :
    ∀ (keys : List Int) (st : EndpointState), DictInv st → keys.Nodup →
    (∀ k2 ∈ keys, dmem st.activeEventDict k2 = true) →
    (postponeKeysLoop ev st keys).1 = PyOutcome.ok ∧
    DictInv (postponeKeysLoop ev st keys).2 ∧
    (postponeKeysLoop ev st keys).2.committedContext = st.committedContext ∧
    (postponeKeysLoop ev st keys).2.externalGlobals = st.externalGlobals ∧
    (postponeKeysLoop ev st keys).2.externalStore = st.externalStore ∧
    (postponeKeysLoop ev st keys).2.endpointName = st.endpointName ∧
    (postponeKeysLoop ev st keys).2.lastIdAssigned = st.lastIdAssigned ∧
    (∀ k2, dget st.activeEventDict k2 = none →
      dget (postponeKeysLoop ev st keys).2.activeEventDict k2 = none) ∧
    (∀ k2 el2, dget (postponeKeysLoop ev st keys).2.activeEventDict k2 = some el2 →
      dget st.activeEventDict k2 = some el2) ∧
    (∀ k2 el2, dget st.activeEventDict k2 = some el2 → k2 ∈ keys →
      ActiveEvent.conflicts ev el2.actEvent = true →
      dget (postponeKeysLoop ev st keys).2.activeEventDict k2 = none) := by
  intro keys
  induction keys with
  | nil =>
    intro st hinv _ _
    refine ⟨rfl, hinv, rfl, rfl, rfl, rfl, rfl, fun k2 h => h, fun k2 el2 h => h, ?_⟩
    intro k2 el2 _ hmem
    simp at hmem
  | cons k rest ih =>
    intro st hinv hnd hpres
    simp only [List.nodup_cons] at hnd
    have hkp := hpres k (List.mem_cons_self _ _)
    simp only [dmem, Option.isSome] at hkp
    cases hg : dget st.activeEventDict k with
    | none => rw [hg] at hkp; simp at hkp
    | some el =>
      by_cases hc : ActiveEvent.conflicts ev el.actEvent = true
      · obtain ⟨ho, hdict, hcc, hgl, hstore, hname, hlast, _hmy, _htheir, _hproto⟩ :=
          postponeActiveEvent_registered st k el hinv hg
        cases hP : Endpoint.postponeActiveEvent st k with
        | mk o p2 =>
          rw [hP] at ho hdict hcc hgl hstore hname hlast
          simp only at ho hdict hcc hgl hstore hname hlast
          subst ho
          have hinv1 : DictInv p2.1 := dictInv_derase st k hinv p2.1 hdict
          have hpres1 : ∀ k2 ∈ rest, dmem p2.1.activeEventDict k2 = true := by
            intro k2 hk2
            have hne : k ≠ k2 := fun hkk => hnd.1 (hkk ▸ hk2)
            rw [dmem, hdict, dget_derase_ne _ _ _ hne hinv.1]
            exact hpres k2 (List.mem_cons_of_mem _ hk2)
          obtain ⟨ih1, ih2, ih3, ih4, ih5, ih6, ih7, ih8, ih9, ih10⟩ :=
            ih p2.1 hinv1 hnd.2 hpres1
          have hloop : postponeKeysLoop ev st (k :: rest) = postponeKeysLoop ev p2.1 rest := by
            simp only [postponeKeysLoop, hg, hc, if_true, hP]
          rw [hloop]
          refine ⟨ih1, ih2, by rw [ih3, hcc], by rw [ih4, hgl], by rw [ih5, hstore],
            by rw [ih6, hname], by rw [ih7, hlast], ?_, ?_, ?_⟩
          · intro k2 hnone
            exact ih8 k2 (by rw [hdict]; exact dget_derase_of_none _ _ _ hnone)
          · intro k2 el2 hsome
            have := ih9 k2 el2 hsome
            rw [hdict] at this
            exact dget_some_of_derase _ _ _ _ hinv.1 this
          · intro k2 el2 hsome hmem hconf
            by_cases hkk : k2 = k
            · subst hkk
              refine ih8 k2 ?_
              rw [hdict]
              exact dget_derase_self _ _ hinv.1
            · simp only [List.mem_cons] at hmem
              rcases hmem with hmem | hmem
              · exact absurd hmem hkk
              · refine ih10 k2 el2 ?_ hmem hconf
                rw [hdict, dget_derase_ne _ _ _ (fun h => hkk h.symm) hinv.1]
                exact hsome
      · have hpres1 : ∀ k2 ∈ rest, dmem st.activeEventDict k2 = true := by
          intro k2 hk2
          exact hpres k2 (List.mem_cons_of_mem _ hk2)
        obtain ⟨ih1, ih2, ih3, ih4, ih5, ih6, ih7, ih8, ih9, ih10⟩ :=
          ih st hinv hnd.2 hpres1
        have hloop : postponeKeysLoop ev st (k :: rest) = postponeKeysLoop ev st rest := by
          simp only [postponeKeysLoop, hg, hc]
          simp
        rw [hloop]
        refine ⟨ih1, ih2, ih3, ih4, ih5, ih6, ih7, ih8, ih9, ?_⟩
        intro k2 el2 hsome hmem hconf
        by_cases hkk : k2 = k
        · subst hkk
          rw [hg] at hsome
          injection hsome with hsome
          subst hsome
          exact absurd hconf hc
        · simp only [List.mem_cons] at hmem
          rcases hmem with hmem | hmem
          · exact absurd hmem hkk
          · exact ih10 k2 el2 hsome hmem hconf

/-! ## Claim C5 -/

/-- The reservation-manager gate of admission (lobby.py lines 1573-1585):
acquisition is skipped when the external footprint of the event is empty,
otherwise its outcome is the oracle result. -/
def externalsReservationOk (st : EndpointState) (ev : ActiveEvent) (reserveOk : Bool) : Bool :=
  if (collectExternalsLoop st ev.activeGlobReads []).isEmpty &&
      (collectExternalsLoop st ev.activeGlobWrites []).isEmpty then true else reserveOk

theorem collectExternalsLoop_congr (st1 st2 : EndpointState)
    (h1 : st1.externalGlobals = st2.externalGlobals)
    (h2 : st1.committedContext = st2.committedContext) :
    ∀ (keys : List String) (acc : List Int),
      collectExternalsLoop st1 keys acc = collectExternalsLoop st2 keys acc := by
  intro keys
  induction keys with
  | nil => intro acc; rfl
  | cons k rest ih =>
    intro acc
    simp only [collectExternalsLoop, h1, h2, ih]

theorem addEventRegister_spec (st : EndpointState) (ev1 : ActiveEvent)
    (r : AddEventResult) (heq : addEventRegister st ev1 = r)
    (hfresh : dmem st.activeEventDict ev1.id = false) :
    ((r.outcome = PyOutcome.ok ∧ r.added = true) ∨
      (r.outcome = PyOutcome.assertFail ∧ r.added = false)) ∧
    (∀ k, k ≠ ev1.id → dget r.state.activeEventDict k = dget st.activeEventDict k) := by
  simp only [addEventRegister] at heq
  split at heq
  · next hdm =>
    rw [hfresh] at hdm
    exact absurd hdm (by simp)
  · split at heq
    next store1 ectx1 hhold =>
      subst heq
      refine ⟨Or.inl ⟨rfl, rfl⟩, ?_⟩
      intro k hk
      simp only
      exact dget_dinsert_ne _ _ _ _ (fun h => hk h.symm)
    next store1 ectx1 hhold =>
      subst heq
      refine ⟨Or.inr ⟨rfl, rfl⟩, ?_⟩
      intro k hk
      simp only
      exact dget_dinsert_ne _ _ _ _ (fun h => hk h.symm)

theorem addEventAdmit_spec (st : EndpointState) (ev : ActiveEvent) (rOk : Bool)
    (r : AddEventResult) (heq : addEventAdmit st ev rOk = r)
    (hfresh : dmem st.activeEventDict ev.id = false) :
    (externalsReservationOk st ev rOk = false →
      r.outcome = PyOutcome.ok ∧ r.added = false ∧ r.eventContext = none ∧ r.state = st) ∧
    (externalsReservationOk st ev rOk = true →
      (r.outcome = PyOutcome.ok ∧ r.added = true) ∨
      (r.outcome = PyOutcome.assertFail ∧ r.added = false)) ∧
    (∀ k, k ≠ ev.id → dget r.state.activeEventDict k = dget st.activeEventDict k) := by
  simp only [addEventAdmit] at heq
  simp only [externalsReservationOk]
  split at heq
  · next hP =>
    rw [if_neg (by decide : ¬(true = false))] at heq
    obtain ⟨hreg1, hreg2⟩ := addEventRegister_spec st _ r heq hfresh
    rw [if_pos hP]
    exact ⟨fun hcontra => absurd hcontra (by simp), fun _ => hreg1, hreg2⟩
  · next hP =>
    rw [if_neg hP]
    split at heq
    · next hrok =>
      subst heq
      exact ⟨fun _ => ⟨rfl, rfl, rfl, rfl⟩, fun htrue => absurd (hrok.symm.trans htrue)
        (by simp), fun k hk => rfl⟩
    · next hrok =>
      obtain ⟨hreg1, hreg2⟩ := addEventRegister_spec st _ r heq hfresh
      have : rOk = true := by
        cases rOk
        · exact absurd rfl hrok
        · rfl
      subst this
      exact ⟨fun hcontra => absurd hcontra (by simp), fun _ => hreg1, hreg2⟩

/-- Claim C5: with force true, addEventToEndpointIfCan first postpones every
currently active event whose footprint conflicts with the incoming event —
after the call no conflicting event remains registered — and admission then
succeeds, except that when the reservation-manager acquisition for the
externally shared objects of the event fails, admission returns denial
(added false, no context) even under force. -/
theorem forced_admission_postpones_conflicts (st : EndpointState) (ev : ActiveEvent)
    (reserveOk : Bool) (r : AddEventResult)
    (heq : ActiveEvent.addEventToEndpointIfCan st ev reserveOk true false = r)
    (hact : ev.active = false) (hinv : DictInv st)
    (hfresh : dget st.activeEventDict ev.id = none) :
    (∀ k el, dget st.activeEventDict k = some el →
      ActiveEvent.conflicts ev el.actEvent = true →
      dget r.state.activeEventDict k = none) ∧
    (externalsReservationOk st ev reserveOk = false →
      r.outcome = PyOutcome.ok ∧ r.added = false ∧ r.eventContext = none) ∧
    (r.outcome ≠ PyOutcome.assertFail →
      (r.added = true ↔ externalsReservationOk st ev reserveOk = true)) := by
  obtain ⟨ho, hinv2, hcc, hgl, hstore, hname, hlast, hnonep, hshrink, hconfrem⟩ :=
    postponeKeysLoop_spec ev (dkeys st.activeEventDict) st hinv hinv.1
      (fun k2 hk2 => by simpa [dmem] using dget_isSome_of_mem_dkeys _ _ hk2)
  simp only [ActiveEvent.addEventToEndpointIfCan, hact, Bool.false_eq_true, if_false,
    addEventResolveConflicts, if_true] at heq
  cases hM : ActiveEvent.postponeConflictingEvents st ev with
  | mk o st2 =>
    have hMl : postponeKeysLoop ev st (dkeys st.activeEventDict) = (o, st2) := hM
    rw [hMl] at ho hinv2 hcc hgl hstore hname hlast hnonep hshrink hconfrem
    simp only at ho hinv2 hcc hgl hstore hname hlast hnonep hshrink hconfrem
    subst ho
    rw [hM] at heq
    have hfresh2 : dmem st2.activeEventDict ev.id = false := by
      simp [dmem, hnonep ev.id hfresh]
    obtain ⟨ha1, ha2, ha3⟩ := addEventAdmit_spec st2 ev reserveOk r heq hfresh2
    have hres : externalsReservationOk st2 ev reserveOk =
        externalsReservationOk st ev reserveOk := by
      simp only [externalsReservationOk, collectExternalsLoop_congr st2 st hgl hcc]
    refine ⟨?_, ?_, ?_⟩
    · intro k el hget hconf
      have hkne : k ≠ ev.id := by
        intro hkk
        rw [hkk, hfresh] at hget
        exact absurd hget (by simp)
      rw [ha3 k hkne]
      exact hconfrem k el hget (mem_dkeys_of_dget_isSome _ _ (by simp [hget])) hconf
    · intro hfail
      rw [hres] at ha1
      obtain ⟨h1, h2, h3, _⟩ := ha1 hfail
      exact ⟨h1, h2, h3⟩
    · intro hnofail
      rw [hres] at ha1 ha2
      constructor
      · intro hadd
        cases hflag : externalsReservationOk st ev reserveOk
        · obtain ⟨_, h2, _, _⟩ := ha1 hflag
          rw [hadd] at h2
          exact absurd h2 (by simp)
        · rfl
      · intro hflag
        rcases ha2 hflag with ⟨_, h2⟩ | ⟨h1, _⟩
        · exact h2
        · exact absurd h1 hnofail

/-- A forced incoming event conflicting with registered event 0 of the
Lobby endpoint (both write 1__on_began_session). -/
def evForcedConflict : ActiveEvent :=
  ⟨"Client_-_-_onCreate", [], ["1__on_began_session"], some [], 2, false, 0, [], [], []⟩

/-- An event writing the external variable 6__users. -/
def evWritesUsers : ActiveEvent :=
  ⟨"e", [], ["6__users"], some [], 2, false, 0, [], [], []⟩

/-- Witness for C5 at concrete inputs: forcing a conflicting event postpones
the registered conflicting event 0 and admission succeeds; with a failing
reservation acquisition on an external-footprint event, forced admission is
denied. -/
theorem forced_admission_postpones_conflicts_witness :
    dget (ActiveEvent.addEventToEndpointIfCan lobbyStateWithActive evForcedConflict
        true true false).state.activeEventDict 0 = none ∧
    ((ActiveEvent.addEventToEndpointIfCan lobbyStateWithActive evForcedConflict
        true true false).added = true ↔
      externalsReservationOk lobbyStateWithActive evForcedConflict true = true) ∧
    ((ActiveEvent.addEventToEndpointIfCan lobbyState evWritesUsers false true false).outcome =
        PyOutcome.ok ∧
      (ActiveEvent.addEventToEndpointIfCan lobbyState evWritesUsers false true false).added =
        false ∧
      (ActiveEvent.addEventToEndpointIfCan lobbyState evWritesUsers
          false true false).eventContext = none) :=
  ⟨(forced_admission_postpones_conflicts lobbyStateWithActive evForcedConflict true _
      rfl (by decide) ⟨by decide, by decide⟩ (by decide)).1 0 elClientOnCreate
      (by decide) (by decide),
   (forced_admission_postpones_conflicts lobbyStateWithActive evForcedConflict true _
      rfl (by decide) ⟨by decide, by decide⟩ (by decide)).2.2 (by decide),
   (forced_admission_postpones_conflicts lobbyState evWritesUsers false _
      rfl (by decide) ⟨by decide, by decide⟩ (by decide)).2.1 (by decide)⟩

/-! ## Claim C3 -/

/-- The non-forced denial test of admission (lobby.py lines 1473-1487), as a
predicate on the usage-counter dictionaries. -/
def nonforcedDenied (readVars writeVars : List (String × Int)) (e : ActiveEvent) : Bool :=
  e.activeGlobReads.any (fun k => counterPos writeVars k) ||
  e.activeGlobWrites.any (fun k => counterPos writeVars k || counterPos readVars k)

/-- Full equation for a denied non-forced admission: the only change is the
fresh-id draw when newId is set. -/
theorem addEvent_nonforced_denied (st : EndpointState) (ev : ActiveEvent)
    (reserveOk newId : Bool) (hact : ev.active = false)
    (hden : nonforcedDenied st.globSharedReadVars st.globSharedWriteVars ev = true) :
    ActiveEvent.addEventToEndpointIfCan st ev reserveOk false newId =
      ⟨PyOutcome.ok, false, none,
       (if newId then { ev with id := st.lastIdAssigned + 2 } else ev),
       (if newId then { st with lastIdAssigned := st.lastIdAssigned + 2 } else st)⟩ := by
  simp only [nonforcedDenied, Bool.or_eq_true] at hden
  cases newId <;>
  · simp only [ActiveEvent.addEventToEndpointIfCan, hact, Bool.false_eq_true, if_false,
      if_true, addEventResolveConflicts]
    rcases hden with h1 | h2
    · simp [h1]
    · by_cases h1 : ev.activeGlobReads.any
          (fun k => counterPos st.globSharedWriteVars k) = true
      · simp [h1]
      · simp [h1, h2]

/-- The retry sweep never forces: when every inactive event is either
already active (and skipped) or denied by the non-forced counter test, the
sweep leaves the active event dictionary and the usage counters untouched —
whatever the priorities of the endpoint are. -/
theorem checkNextEventLoop_no_admission (rOk : Bool) :
    ∀ (fuel : Nat) (st : EndpointState) (itIdx counter : Nat),
    (∀ e ∈ st.inactiveEvents, e.active = true ∨
      nonforcedDenied st.globSharedReadVars st.globSharedWriteVars e = true) →
    (Endpoint.checkNextEventLoop rOk fuel st itIdx counter).1 = PyOutcome.ok ∧
    (Endpoint.checkNextEventLoop rOk fuel st itIdx counter).2.activeEventDict =
      st.activeEventDict ∧
    (Endpoint.checkNextEventLoop rOk fuel st itIdx counter).2.globSharedReadVars =
      st.globSharedReadVars ∧
    (Endpoint.checkNextEventLoop rOk fuel st itIdx counter).2.globSharedWriteVars =
      st.globSharedWriteVars ∧
    (Endpoint.checkNextEventLoop rOk fuel st itIdx counter).2.committedContext =
      st.committedContext := by
  intro fuel
  induction fuel with
  | zero =>
    intro st itIdx counter _
    exact ⟨rfl, rfl, rfl, rfl, rfl⟩
  | succ fuel ih =>
    intro st itIdx counter hall
    by_cases h : itIdx < st.inactiveEvents.length
    · have hmem : st.inactiveEvents.get ⟨itIdx, h⟩ ∈ st.inactiveEvents :=
        List.get_mem _ _ _
      cases hac : (st.inactiveEvents.get ⟨itIdx, h⟩).active
      · have hden : nonforcedDenied st.globSharedReadVars st.globSharedWriteVars
            (st.inactiveEvents.get ⟨itIdx, h⟩) = true := by
          rcases hall _ hmem with hh | hh
          · rw [hac] at hh
            exact absurd hh (by simp)
          · exact hh
        have hadd := addEvent_nonforced_denied st (st.inactiveEvents.get ⟨itIdx, h⟩)
          rOk true hac hden
        simp only [if_true] at hadd
        have hloop : Endpoint.checkNextEventLoop rOk (fuel + 1) st itIdx counter =
            Endpoint.checkNextEventLoop rOk fuel
              { st with
                lastIdAssigned := st.lastIdAssigned + 2,
                inactiveEvents := st.inactiveEvents.set itIdx
                  { st.inactiveEvents.get ⟨itIdx, h⟩ with id := st.lastIdAssigned + 2 } }
              (itIdx + 1) (counter + 1) := by
          simp only [Endpoint.checkNextEventLoop, dif_pos h, hac, Bool.false_eq_true,
            if_false, hadd]
          rfl
        rw [hloop]
        have hall2 : ∀ e ∈ (st.inactiveEvents.set itIdx
            { st.inactiveEvents.get ⟨itIdx, h⟩ with id := st.lastIdAssigned + 2 }),
            e.active = true ∨
            nonforcedDenied st.globSharedReadVars st.globSharedWriteVars e = true := by
          intro e he
          rcases List.mem_or_eq_of_mem_set he with he2 | he2
          · exact hall e he2
          · subst he2
            right
            exact hden
        exact ih _ (itIdx + 1) (counter + 1) hall2
      · have hloop : Endpoint.checkNextEventLoop rOk (fuel + 1) st itIdx counter =
            Endpoint.checkNextEventLoop rOk fuel st (itIdx + 1) counter := by
          simp only [Endpoint.checkNextEventLoop, dif_pos h, hac, if_true]
        rw [hloop]
        exact ih st (itIdx + 1) counter hall
    · have hloop : Endpoint.checkNextEventLoop rOk (fuel + 1) st itIdx counter =
          (PyOutcome.ok, st) := by
        simp only [Endpoint.checkNextEventLoop, dif_neg h]
      rw [hloop]
      exact ⟨rfl, rfl, rfl, rfl, rfl⟩

/-- An active event of the Lobby endpoint writing the tracked variable
0__username (id 7), with its usage counter held. -/
def evActiveUsername : ActiveEvent :=
  ⟨"eA", [], ["0__username"], some [], 7, true, 1, [], [], []⟩

def elUsername : ActiveEventDictElement :=
  ⟨evActiveUsername, { Context.init "Lobby" with id := some 1, seqGlobals := some [] }⟩

/-- A postponed event conflicting with the active one on 0__username. -/
def evRetryUsername : ActiveEvent :=
  ⟨"eB", [], ["0__username"], some [], 5, false, 0, [], [], []⟩

/-- The higher-priority Lobby endpoint (priority 1 against 0) with the
conflicting pair: event 7 active, evRetryUsername queued for retry. -/
def lobbyRetryState : EndpointState :=
  { lobbyState with
    activeEventDict := [(7, elUsername)],
    globSharedWriteVars := [("0__username", 1), ("6__users", 0)],
    inactiveEvents := [evRetryUsername] }

/-- Counterexample to C3 as stated: on the higher-priority Lobby endpoint
(priority 1 against 0), the retry sweep does not set force on the retry of
its own conflicting queued event — the retry is denied and the conflicting
active event keeps its admission — although a forced admission of the very
same event would succeed.  The force flag is never applied by the
higher-priority side to its own retries. -/
theorem higher_priority_retry_not_forced :
    lobbyRetryState.myPriority > lobbyRetryState.theirPriority ∧
    (Endpoint.checkNextEvent lobbyRetryState true).1 = PyOutcome.ok ∧
    (Endpoint.checkNextEvent lobbyRetryState true).2.activeEventDict =
      lobbyRetryState.activeEventDict ∧
    ((Endpoint.checkNextEvent lobbyRetryState true).2.inactiveEvents.map
      ActiveEvent.active) = [false] ∧
    (ActiveEvent.addEventToEndpointIfCan lobbyRetryState evRetryUsername
      true true true).added = true := by
  refine ⟨by decide, ?_, ?_, ?_, by decide⟩ <;> decide

/-- Claim C3 (amended): an endpoint receiving a first-time event request
replies NOT_ACCEPTED exactly when the admission of the generated event —
performed with force set exactly when this endpoint has the lower priority —
is denied; in particular the higher-priority endpoint admits incoming peer
events non-forcibly.  The force flag is applied by the lower-priority
receiving side to the incoming peer event, not by the higher-priority side
to its own retries: the retry sweep never forces, leaving the dictionary and
counters unchanged whenever every queued event fails the non-forced counter
test, whatever the priorities are. -/
theorem priority_force_rule (st : EndpointState) (eventId : Int) (eventName : String)
    (cmsg : ContextMsg) (reserveOk : Bool) (proto : EventProto)
    (r : PyOutcome × Option Int × EndpointState)
    (heq : Endpoint.msgReceiveNewEvent st eventId eventName cmsg reserveOk = r)
    (hnotmine : Endpoint.iInitiated st eventId = false)
    (hproto : dget st.prototypeEventsDict eventName = some proto) :
    ((st.myPriority > st.theirPriority →
        decide (st.myPriority < st.theirPriority) = false) ∧
      (r.1 ≠ PyOutcome.assertFail →
        (r.2.1 = some eventId ↔
          (ActiveEvent.addEventToEndpointIfCan
            (EventProto.generateActiveEvent st proto).2
            { (EventProto.generateActiveEvent st proto).1 with id := eventId }
            reserveOk (decide (st.myPriority < st.theirPriority)) false).added = false))) ∧
    (∀ (st2 : EndpointState) (rOk2 : Bool),
      (∀ e ∈ st2.inactiveEvents, e.active = true ∨
        nonforcedDenied st2.globSharedReadVars st2.globSharedWriteVars e = true) →
      (Endpoint.checkNextEvent st2 rOk2).1 = PyOutcome.ok ∧
      (Endpoint.checkNextEvent st2 rOk2).2.activeEventDict = st2.activeEventDict ∧
      (Endpoint.checkNextEvent st2 rOk2).2.globSharedReadVars = st2.globSharedReadVars ∧
      (Endpoint.checkNextEvent st2 rOk2).2.globSharedWriteVars = st2.globSharedWriteVars) := by
  constructor
  · constructor
    · intro hgt
      simp only [decide_eq_false_iff_not]
      omega
    · intro hnofail
      simp only [Endpoint.msgReceiveNewEvent, hnotmine, Bool.false_eq_true, if_false,
        hproto] at heq
      split at heq
      · next h1 =>
        subst heq
        exact absurd rfl hnofail
      · next h1 =>
        split at heq
        · next h2 =>
          subst heq
          simpa using h2
        · next h2 =>
          split at heq
          · subst heq
            exact absurd rfl hnofail
          · next ectx =>
            split at heq
            · next hupd =>
              subst heq
              exact absurd rfl hnofail
            · next ectx1 hupd =>
              subst heq
              constructor
              · intro hc
                exact absurd hc.symm (by simp)
              · intro hc
                exact absurd hc h2
  · intro st2 rOk2 hall
    obtain ⟨h1, h2, h3, h4, _⟩ := checkNextEventLoop_no_admission rOk2
      (st2.inactiveEvents.length + 1) st2 0 0 hall
    exact ⟨h1, h2, h3, h4⟩

/-- Witness for the amended C3 at concrete inputs: the higher-priority Lobby
endpoint processes a first-time request non-forcibly, replying NOT_ACCEPTED
exactly when that non-forced admission is denied, and its retry sweep on
the conflicting queued event admits nothing. -/
theorem priority_force_rule_witness :
    decide (lobbyState.myPriority < lobbyState.theirPriority) = false ∧
    ((Endpoint.msgReceiveNewEvent lobbyState 0 "Client_-_-_onCreate"
        ⟨[], [], [], []⟩ true).2.1 = some 0 ↔
      (ActiveEvent.addEventToEndpointIfCan
        (EventProto.generateActiveEvent lobbyState protoClientOnCreate).2
        { (EventProto.generateActiveEvent lobbyState protoClientOnCreate).1 with id := 0 }
        true (decide (lobbyState.myPriority < lobbyState.theirPriority)) false).added =
        false) ∧
    ((Endpoint.checkNextEvent lobbyRetryState true).1 = PyOutcome.ok ∧
      (Endpoint.checkNextEvent lobbyRetryState true).2.activeEventDict =
        lobbyRetryState.activeEventDict ∧
      (Endpoint.checkNextEvent lobbyRetryState true).2.globSharedReadVars =
        lobbyRetryState.globSharedReadVars ∧
      (Endpoint.checkNextEvent lobbyRetryState true).2.globSharedWriteVars =
        lobbyRetryState.globSharedWriteVars) :=
  have h := priority_force_rule lobbyState 0 "Client_-_-_onCreate" ⟨[], [], [], []⟩ true
    protoClientOnCreate _ rfl (by decide) (by decide)
  ⟨h.1.1 (by decide), h.1.2 (by decide), h.2 lobbyRetryState true (by decide)⟩

/-! ## Claim C1 -/

/-- Number of registered active events reading a variable. -/
def readersCount (dict : List (Int × ActiveEventDictElement)) (v : String) : Int :=
  (dict.countP (fun p => decide (v ∈ p.2.actEvent.activeGlobReads)) : Int)

/-- Number of registered active events writing a variable. -/
def writersCount (dict : List (Int × ActiveEventDictElement)) (v : String) : Int :=
  (dict.countP (fun p => decide (v ∈ p.2.actEvent.activeGlobWrites)) : Int)

/-- The usage counters track, for every variable they list, exactly the
number of registered active events reading respectively writing it. -/
def CounterAccuracy (st : EndpointState) : Prop :=
  (∀ p ∈ st.globSharedReadVars, p.2 = readersCount st.activeEventDict p.1) ∧
  (∀ p ∈ st.globSharedWriteVars, p.2 = writersCount st.activeEventDict p.1)

/-- Mutual exclusion for the variables this endpoint tracks (the variables
listed in both of its usage-counter dictionaries): no two distinct
registered active events have a writer together with a writer or a reader
of the same tracked variable. -/
def trackedMutex (st : EndpointState) : Prop :=
  ∀ p ∈ st.activeEventDict, ∀ q ∈ st.activeEventDict, p.1 ≠ q.1 →
    ∀ v ∈ p.2.actEvent.activeGlobWrites,
      dmem st.globSharedReadVars v = true → dmem st.globSharedWriteVars v = true →
      ¬(v ∈ q.2.actEvent.activeGlobWrites ∨ v ∈ q.2.actEvent.activeGlobReads)

/-- Mutual exclusion over all variable identifiers, as claimed: no two
distinct registered active events conflict on any variable. -/
def fullMutex (st : EndpointState) : Prop :=
  ∀ p ∈ st.activeEventDict, ∀ q ∈ st.activeEventDict, p.1 ≠ q.1 →
    ∀ v, ¬(v ∈ p.2.actEvent.activeGlobWrites ∧
      (v ∈ q.2.actEvent.activeGlobWrites ∨ v ∈ q.2.actEvent.activeGlobReads))

/-- The endpoint scheduling invariant: a well-formed dictionary, duplicate
free counter dictionaries and footprints, accurate counters, and mutual
exclusion on tracked variables. -/
def SchedInv (st : EndpointState) : Prop :=
  DictInv st ∧
  (dkeys st.globSharedReadVars).Nodup ∧
  (dkeys st.globSharedWriteVars).Nodup ∧
  (∀ p ∈ st.activeEventDict,
    p.2.actEvent.activeGlobReads.Nodup ∧ p.2.actEvent.activeGlobWrites.Nodup) ∧
  CounterAccuracy st ∧
  trackedMutex st

theorem dget_of_mem_nodup {α β : Type} [DecidableEq α] (d : List (α × β)) (k : α) (v : β)
    (hnd : (dkeys d).Nodup) (h : (k, v) ∈ d) : dget d k = some v := by
  induction d with
  | nil => simp at h
  | cons hd tl ih =>
    obtain ⟨ka, va⟩ := hd
    simp only [dkeys, List.map_cons, List.nodup_cons] at hnd
    simp only [List.mem_cons] at h
    rcases h with h | h
    · injection h with h1 h2
      subst h1
      subst h2
      simp [dget]
    · have hne : ka ≠ k := by
        intro he
        subst he
        exact hnd.1 (by simpa [dkeys] using List.mem_map_of_mem Prod.fst h)
      simp [dget, hne, ih hnd.2 h]

theorem countP_derase_first {α β : Type} [DecidableEq α] (d : List (α × β)) (k : α) (el : β)
    (hnd : (dkeys d).Nodup) (hget : dget d k = some el) (p : α × β → Bool) :
    ((derase d k).countP p : Int) = (d.countP p : Int) - (if p (k, el) then 1 else 0) := by
  induction d with
  | nil => simp [dget] at hget
  | cons hd tl ih =>
    obtain ⟨ka, va⟩ := hd
    simp only [dkeys, List.map_cons, List.nodup_cons] at hnd
    by_cases h2 : ka = k
    · subst h2
      simp only [dget, eq_self_iff_true, if_true, Option.some.injEq] at hget
      subst hget
      simp only [derase, if_pos rfl, List.countP_cons]
      by_cases hp : p (ka, va)
      · simp [hp]
      · simp [hp]
    · simp only [dget, if_neg h2] at hget
      simp only [derase, if_neg h2, List.countP_cons]
      rw [Int.ofNat_add]
      rw [ih hnd.2 hget]
      by_cases hp : p (ka, va)
      · simp [hp]
        try omega
      · simp [hp]
        try omega

theorem countP_dinsert_fresh {α β : Type} [DecidableEq α] (d : List (α × β)) (k : α) (v : β)
    (hmem : dmem d k = false) (p : α × β → Bool) :
    ((dinsert d k v).countP p : Int) = (d.countP p : Int) + (if p (k, v) then 1 else 0) := by
  induction d with
  | nil =>
    simp only [dinsert, List.countP_cons, List.countP_nil]
    by_cases hp : p (k, v) <;> simp [hp]
  | cons hd tl ih =>
    obtain ⟨ka, va⟩ := hd
    by_cases h2 : ka = k
    · subst h2
      simp [dmem, dget] at hmem
    · simp only [dmem, dget, if_neg h2] at hmem
      simp only [dinsert, if_neg h2, List.countP_cons]
      rw [Int.ofNat_add, Int.ofNat_add, ih hmem]
      by_cases hp : p (ka, va)
      · simp [hp]
        try omega
      · simp [hp]
        try omega

theorem dmem_incrCounters (d : List (String × Int)) (keys : List String) (v : String)
    (hnd : keys.Nodup) : dmem (incrCounters d keys) v = dmem d v := by
  simp only [dmem, incrCounters_dget d keys v hnd]
  by_cases h : v ∈ keys
  · simp only [h, if_true]
    cases dget d v <;> simp
  · simp [h]

theorem dmem_decrCountersPT (d : List (String × Int)) (keys : List String) (pt : Bool)
    (v : String) (hnd : keys.Nodup) : dmem (decrCountersPT d keys pt).1 v = dmem d v := by
  simp only [dmem, decrCountersPT_dget d keys pt v hnd]
  by_cases h : v ∈ keys
  · simp only [h, if_true]
    cases dget d v <;> simp
  · simp [h]

/-- The dictionary element produced by admitting evForcedConflict
non-forcibly into lobbyStateWithActive. -/
def elConflictAdmitted : ActiveEventDictElement :=
  ⟨{ evForcedConflict with contextId := 1, active := true },
   { Context.init "Lobby" with
     endGlobals := [("1__on_began_session", Val.vnone)],
     seqGlobals := some [], id := some 1 }⟩

/-- Counterexample to claim C1 as stated: the Lobby endpoint does not track
usage counters for the variable 1__on_began_session, so a second event
writing it is admitted without force while event 0, which also writes it,
is still registered — two conflicting events are active at once.  The
counter check of addEventToEndpointIfCan (lobby.py lines 1470-1482) only
consults variables present in the usage-counter dictionaries, so mutual
exclusion holds only for tracked variables. -/
theorem untracked_variable_breaks_full_mutex :
    fullMutex lobbyStateWithActive ∧
    (ActiveEvent.addEventToEndpointIfCan lobbyStateWithActive evForcedConflict
        true false false).outcome = PyOutcome.ok ∧
    (ActiveEvent.addEventToEndpointIfCan lobbyStateWithActive evForcedConflict
        true false false).added = true ∧
    ¬ fullMutex (ActiveEvent.addEventToEndpointIfCan lobbyStateWithActive evForcedConflict
        true false false).state := by
  refine ⟨?_, by decide, by decide, ?_⟩
  · intro p hp q hq hne v
    have hp2 : p ∈ [((0 : Int), elClientOnCreate)] := hp
    have hq2 : q ∈ [((0 : Int), elClientOnCreate)] := hq
    simp only [List.mem_singleton] at hp2 hq2
    exfalso
    rw [hp2, hq2] at hne
    exact hne rfl
  · intro h
    have hp : ((0 : Int), elClientOnCreate) ∈
        (ActiveEvent.addEventToEndpointIfCan lobbyStateWithActive evForcedConflict
          true false false).state.activeEventDict := by decide
    have hq : ((2 : Int), elConflictAdmitted) ∈
        (ActiveEvent.addEventToEndpointIfCan lobbyStateWithActive evForcedConflict
          true false false).state.activeEventDict := by decide
    have h2 := h _ hp _ hq (by decide) "1__on_began_session"
    exact h2 (by decide)

theorem schedInv_congr (st1 st2 : EndpointState)
    (hd : st2.activeEventDict = st1.activeEventDict)
    (hr : st2.globSharedReadVars = st1.globSharedReadVars)
    (hw : st2.globSharedWriteVars = st1.globSharedWriteVars)
    (h : SchedInv st1) : SchedInv st2 := by
  unfold SchedInv DictInv CounterAccuracy trackedMutex at h ⊢
  rw [hd, hr, hw]
  exact h

theorem readersCount_derase (dict : List (Int × ActiveEventDictElement)) (k : Int)
    (el : ActiveEventDictElement) (hnd : (dkeys dict).Nodup)
    (hget : dget dict k = some el) (v : String) :
    readersCount (derase dict k) v =
      readersCount dict v - (if v ∈ el.actEvent.activeGlobReads then 1 else 0) := by
  unfold readersCount
  rw [countP_derase_first dict k el hnd hget]
  by_cases h : v ∈ el.actEvent.activeGlobReads <;> simp [h]

theorem writersCount_derase (dict : List (Int × ActiveEventDictElement)) (k : Int)
    (el : ActiveEventDictElement) (hnd : (dkeys dict).Nodup)
    (hget : dget dict k = some el) (v : String) :
    writersCount (derase dict k) v =
      writersCount dict v - (if v ∈ el.actEvent.activeGlobWrites then 1 else 0) := by
  unfold writersCount
  rw [countP_derase_first dict k el hnd hget]
  by_cases h : v ∈ el.actEvent.activeGlobWrites <;> simp [h]

theorem readersCount_dinsert (dict : List (Int × ActiveEventDictElement)) (k : Int)
    (el : ActiveEventDictElement) (hmem : dmem dict k = false) (v : String) :
    readersCount (dinsert dict k el) v =
      readersCount dict v + (if v ∈ el.actEvent.activeGlobReads then 1 else 0) := by
  unfold readersCount
  rw [countP_dinsert_fresh dict k el hmem]
  by_cases h : v ∈ el.actEvent.activeGlobReads <;> simp [h]

theorem writersCount_dinsert (dict : List (Int × ActiveEventDictElement)) (k : Int)
    (el : ActiveEventDictElement) (hmem : dmem dict k = false) (v : String) :
    writersCount (dinsert dict k el) v =
      writersCount dict v + (if v ∈ el.actEvent.activeGlobWrites then 1 else 0) := by
  unfold writersCount
  rw [countP_dinsert_fresh dict k el hmem]
  by_cases h : v ∈ el.actEvent.activeGlobWrites <;> simp [h]

theorem readersCount_nonneg (dict : List (Int × ActiveEventDictElement)) (v : String) :
    0 ≤ readersCount dict v := Int.ofNat_nonneg _

theorem writersCount_nonneg (dict : List (Int × ActiveEventDictElement)) (v : String) :
    0 ≤ writersCount dict v := Int.ofNat_nonneg _

theorem readersCount_pos_of_mem (dict : List (Int × ActiveEventDictElement))
    (p : Int × ActiveEventDictElement) (v : String) (hp : p ∈ dict)
    (hv : v ∈ p.2.actEvent.activeGlobReads) : 0 < readersCount dict v := by
  unfold readersCount
  have : 0 < dict.countP (fun q => decide (v ∈ q.2.actEvent.activeGlobReads)) :=
    List.countP_pos.mpr ⟨p, hp, by simpa using hv⟩
  exact_mod_cast this

theorem writersCount_pos_of_mem (dict : List (Int × ActiveEventDictElement))
    (p : Int × ActiveEventDictElement) (v : String) (hp : p ∈ dict)
    (hv : v ∈ p.2.actEvent.activeGlobWrites) : 0 < writersCount dict v := by
  unfold writersCount
  have : 0 < dict.countP (fun q => decide (v ∈ q.2.actEvent.activeGlobWrites)) :=
    List.countP_pos.mpr ⟨p, hp, by simpa using hv⟩
  exact_mod_cast this

theorem readersCount_eq_zero (dict : List (Int × ActiveEventDictElement)) (v : String)
    (h : readersCount dict v = 0) (p : Int × ActiveEventDictElement) (hp : p ∈ dict) :
    v ∉ p.2.actEvent.activeGlobReads := by
  intro hv
  have := readersCount_pos_of_mem dict p v hp hv
  omega

theorem writersCount_eq_zero (dict : List (Int × ActiveEventDictElement)) (v : String)
    (h : writersCount dict v = 0) (p : Int × ActiveEventDictElement) (hp : p ∈ dict) :
    v ∉ p.2.actEvent.activeGlobWrites := by
  intro hv
  have := writersCount_pos_of_mem dict p v hp hv
  omega

theorem schedInv_cancel (st : EndpointState) (ev : ActiveEvent)
    (hinv : SchedInv st)
    (hreg : ∀ el, dget st.activeEventDict ev.id = some el → el.actEvent = ev) :
    SchedInv (ActiveEvent.cancelActiveEvent st ev).2.2 := by
  obtain ⟨⟨hnk, hels⟩, hnr, hnw, hfoot, ⟨hra, hwa⟩, hmux⟩ := hinv
  unfold ActiveEvent.cancelActiveEvent
  by_cases hact : ev.active = false
  · rw [if_pos hact]
    exact ⟨⟨hnk, hels⟩, hnr, hnw, hfoot, ⟨hra, hwa⟩, hmux⟩
  · rw [if_neg hact]
    by_cases hmem : dmem st.activeEventDict ev.id = false
    · rw [if_pos hmem]
      exact ⟨⟨hnk, hels⟩, hnr, hnw, hfoot, ⟨hra, hwa⟩, hmux⟩
    · rw [if_neg hmem]
      cases hel : dget st.activeEventDict ev.id with
      | none =>
        exfalso
        apply hmem
        simp [dmem, hel]
      | some el =>
        have hele : el.actEvent = ev := hreg el hel
        have hfp := hfoot (ev.id, el) (dget_mem _ _ _ hel)
        simp only at hfp
        rw [hele] at hfp
        have hfr : ev.activeGlobReads.Nodup := hfp.1
        have hfw : ev.activeGlobWrites.Nodup := hfp.2
        refine ⟨⟨?_, ?_⟩, ?_, ?_, ?_, ⟨?_, ?_⟩, ?_⟩
        · show (dkeys (derase st.activeEventDict ev.id)).Nodup
          exact nodup_dkeys_derase _ _ hnk
        · intro p hp
          exact hels p (mem_derase_sub _ _ _ hp)
        · show (dkeys (decrCountersPT st.globSharedReadVars ev.activeGlobReads false).1).Nodup
          rw [dkeys_decrCountersPT]
          exact hnr
        · show (dkeys (decrCountersPT st.globSharedWriteVars ev.activeGlobWrites
            (decrCountersPT st.globSharedReadVars ev.activeGlobReads false).2).1).Nodup
          rw [dkeys_decrCountersPT]
          exact hnw
        · intro p hp
          exact hfoot p (mem_derase_sub _ _ _ hp)
        · intro p hp
          obtain ⟨k, n⟩ := p
          have hndp : (dkeys
              (decrCountersPT st.globSharedReadVars ev.activeGlobReads false).1).Nodup := by
            rw [dkeys_decrCountersPT]
            exact hnr
          have hgp : dget
              (decrCountersPT st.globSharedReadVars ev.activeGlobReads false).1 k = some n :=
            dget_of_mem_nodup _ _ _ hndp hp
          rw [decrCountersPT_dget _ _ _ _ hfr] at hgp
          show n = readersCount (derase st.activeEventDict ev.id) k
          rw [readersCount_derase st.activeEventDict ev.id el hnk hel k, hele]
          by_cases hk : k ∈ ev.activeGlobReads
          · rw [if_pos hk] at hgp
            cases hg0 : dget st.globSharedReadVars k with
            | none =>
              rw [hg0] at hgp
              simp at hgp
            | some m =>
              rw [hg0] at hgp
              simp only [Option.map] at hgp
              injection hgp with hgp
              have hm : m = readersCount st.activeEventDict k :=
                hra (k, m) (dget_mem _ _ _ hg0)
              rw [if_pos hk]
              omega
          · rw [if_neg hk] at hgp
            have hm : n = readersCount st.activeEventDict k :=
              hra (k, n) (dget_mem _ _ _ hgp)
            rw [if_neg hk]
            omega
        · intro p hp
          obtain ⟨k, n⟩ := p
          have hndp : (dkeys (decrCountersPT st.globSharedWriteVars ev.activeGlobWrites
              (decrCountersPT st.globSharedReadVars ev.activeGlobReads false).2).1).Nodup := by
            rw [dkeys_decrCountersPT]
            exact hnw
          have hgp : dget (decrCountersPT st.globSharedWriteVars ev.activeGlobWrites
              (decrCountersPT st.globSharedReadVars ev.activeGlobReads false).2).1 k =
              some n :=
            dget_of_mem_nodup _ _ _ hndp hp
          rw [decrCountersPT_dget _ _ _ _ hfw] at hgp
          show n = writersCount (derase st.activeEventDict ev.id) k
          rw [writersCount_derase st.activeEventDict ev.id el hnk hel k, hele]
          by_cases hk : k ∈ ev.activeGlobWrites
          · rw [if_pos hk] at hgp
            cases hg0 : dget st.globSharedWriteVars k with
            | none =>
              rw [hg0] at hgp
              simp at hgp
            | some m =>
              rw [hg0] at hgp
              simp only [Option.map] at hgp
              injection hgp with hgp
              have hm : m = writersCount st.activeEventDict k :=
                hwa (k, m) (dget_mem _ _ _ hg0)
              rw [if_pos hk]
              omega
          · rw [if_neg hk] at hgp
            have hm : n = writersCount st.activeEventDict k :=
              hwa (k, n) (dget_mem _ _ _ hgp)
            rw [if_neg hk]
            omega
        · intro p hp q hq hne v hv hdr hdw
          have hp2 : p ∈ derase st.activeEventDict ev.id := hp
          have hq2 : q ∈ derase st.activeEventDict ev.id := hq
          have hdr2 : dmem
              (decrCountersPT st.globSharedReadVars ev.activeGlobReads false).1 v = true := hdr
          have hdw2 : dmem (decrCountersPT st.globSharedWriteVars ev.activeGlobWrites
              (decrCountersPT st.globSharedReadVars ev.activeGlobReads false).2).1 v =
              true := hdw
          rw [dmem_decrCountersPT _ _ _ _ hfr] at hdr2
          rw [dmem_decrCountersPT _ _ _ _ hfw] at hdw2
          exact hmux p (mem_derase_sub _ _ _ hp2) q (mem_derase_sub _ _ _ hq2) hne
            v hv hdr2 hdw2

theorem schedInv_postponeActiveEvent (st : EndpointState) (evId : Int)
    (hinv : SchedInv st) : SchedInv (Endpoint.postponeActiveEvent st evId).2.1 := by
  unfold Endpoint.postponeActiveEvent
  cases hel : dget st.activeEventDict evId with
  | none => exact hinv
  | some el =>
    have hid : el.actEvent.id = evId := (hinv.1.2 (evId, el) (dget_mem _ _ _ hel)).2
    have hreg : ∀ el2, dget st.activeEventDict el.actEvent.id = some el2 →
        el2.actEvent = el.actEvent := by
      intro el2 h2
      rw [hid, hel] at h2
      injection h2 with h2
      rw [← h2]
    have hc := schedInv_cancel st el.actEvent hinv hreg
    unfold ActiveEvent.postpone
    dsimp only
    rcases hcc : ActiveEvent.cancelActiveEvent st el.actEvent with ⟨o, b, st1⟩
    rw [hcc] at hc
    cases o with
    | assertFail => exact hc
    | ok => exact schedInv_congr st1 _ rfl rfl rfl hc

theorem postponeKeysLoop_schedInv (ev : ActiveEvent) :
    ∀ (keys : List Int) (st : EndpointState), SchedInv st →
    SchedInv (postponeKeysLoop ev st keys).2 := by
  intro keys
  induction keys with
  | nil =>
    intro st hinv
    exact hinv
  | cons k rest ih =>
    intro st hinv
    simp only [postponeKeysLoop]
    cases hg : dget st.activeEventDict k with
    | none => exact hinv
    | some el =>
      by_cases hc : ActiveEvent.conflicts ev el.actEvent = true
      · simp only [hc, if_true]
        have hpost := schedInv_postponeActiveEvent st k hinv
        rcases hP : Endpoint.postponeActiveEvent st k with ⟨o, st1, c⟩
        rw [hP] at hpost
        cases o with
        | assertFail => exact hpost
        | ok => exact ih st1 hpost
      · simp only [hc]
        simp only [Bool.false_eq_true, if_false]
        exact ih st hinv

/-- The safety precondition the conflict-resolution stage establishes for
the admission tail: no registered event shares a tracked variable with the
candidate in a conflicting way. -/
def AdmitSafe (st : EndpointState) (ev : ActiveEvent) : Prop :=
  ∀ q ∈ st.activeEventDict, ∀ v : String,
    dmem st.globSharedReadVars v = true → dmem st.globSharedWriteVars v = true →
    ¬((v ∈ ev.activeGlobWrites ∧
        (v ∈ q.2.actEvent.activeGlobWrites ∨ v ∈ q.2.actEvent.activeGlobReads)) ∨
      (v ∈ q.2.actEvent.activeGlobWrites ∧
        (v ∈ ev.activeGlobWrites ∨ v ∈ ev.activeGlobReads)))

theorem schedInv_addEventAdmit (st : EndpointState) (ev : ActiveEvent) (reserveOk : Bool)
    (hinv : SchedInv st) (hfr : ev.activeGlobReads.Nodup) (hfw : ev.activeGlobWrites.Nodup)
    (hsafe : AdmitSafe st ev)
    (hout : (addEventAdmit st ev reserveOk).outcome ≠ PyOutcome.assertFail) :
    SchedInv (addEventAdmit st ev reserveOk).state := by
  obtain ⟨⟨hnk, hels⟩, hnr, hnw, hfoot, ⟨hra, hwa⟩, hmux⟩ := hinv
  rcases hR : addEventAdmit st ev reserveOk with ⟨o, a, c, e, s⟩
  rw [hR] at hout
  dsimp only at hout ⊢
  simp only [addEventAdmit] at hR
  cases hrv : (if (collectExternalsLoop st ev.activeGlobReads []).isEmpty &&
      (collectExternalsLoop st ev.activeGlobWrites []).isEmpty then true
      else reserveOk) with
  | false =>
    rw [hrv] at hR
    rw [if_pos rfl] at hR
    cases hR
    exact ⟨⟨hnk, hels⟩, hnr, hnw, hfoot, ⟨hra, hwa⟩, hmux⟩
  | true =>
    rw [hrv] at hR
    rw [if_neg (by decide : ¬(true = false))] at hR
    simp only [addEventRegister] at hR
    by_cases hdm : dmem st.activeEventDict ev.id = true
    · simp only [hdm, if_pos rfl] at hR
      cases hR
      exact absurd rfl hout
    · have hdm2 : dmem st.activeEventDict ev.id = false := by
        cases h2 : dmem st.activeEventDict ev.id
        · rfl
        · exact absurd h2 hdm
      simp only [hdm2, Bool.false_eq_true, if_false] at hR
      split at hR
      · cases hR
        refine ⟨⟨?_, ?_⟩, ?_, ?_, ?_, ⟨?_, ?_⟩, ?_⟩
        · show (dkeys (dinsert st.activeEventDict ev.id _)).Nodup
          exact nodup_dkeys_dinsert _ _ _ hnk hdm2
        · intro p hp
          rcases mem_dinsert _ _ _ _ hp with h2 | h2
          · exact hels p h2
          · rw [h2]
            exact ⟨rfl, rfl⟩
        · show (dkeys (incrCounters st.globSharedReadVars ev.activeGlobReads)).Nodup
          rw [dkeys_incrCounters]
          exact hnr
        · show (dkeys (incrCounters st.globSharedWriteVars ev.activeGlobWrites)).Nodup
          rw [dkeys_incrCounters]
          exact hnw
        · intro p hp
          rcases mem_dinsert _ _ _ _ hp with h2 | h2
          · exact hfoot p h2
          · rw [h2]
            exact ⟨hfr, hfw⟩
        · intro p hp
          obtain ⟨k, n⟩ := p
          have hndp : (dkeys (incrCounters st.globSharedReadVars ev.activeGlobReads)).Nodup := by
            rw [dkeys_incrCounters]
            exact hnr
          have hgp : dget (incrCounters st.globSharedReadVars ev.activeGlobReads) k = some n :=
            dget_of_mem_nodup _ _ _ hndp hp
          rw [incrCounters_dget _ _ _ hfr] at hgp
          show n = readersCount (dinsert st.activeEventDict ev.id _) k
          rw [readersCount_dinsert st.activeEventDict ev.id _ hdm2 k]
          by_cases hk : k ∈ ev.activeGlobReads
          · rw [if_pos hk] at hgp
            cases hg0 : dget st.globSharedReadVars k with
            | none =>
              rw [hg0] at hgp
              simp at hgp
            | some m =>
              rw [hg0] at hgp
              simp only [Option.map] at hgp
              injection hgp with hgp
              have hm : m = readersCount st.activeEventDict k :=
                hra (k, m) (dget_mem _ _ _ hg0)
              simp only
              rw [if_pos hk]
              omega
          · rw [if_neg hk] at hgp
            have hm : n = readersCount st.activeEventDict k :=
              hra (k, n) (dget_mem _ _ _ hgp)
            simp only
            rw [if_neg hk]
            omega
        · intro p hp
          obtain ⟨k, n⟩ := p
          have hndp : (dkeys
              (incrCounters st.globSharedWriteVars ev.activeGlobWrites)).Nodup := by
            rw [dkeys_incrCounters]
            exact hnw
          have hgp : dget (incrCounters st.globSharedWriteVars ev.activeGlobWrites) k =
              some n :=
            dget_of_mem_nodup _ _ _ hndp hp
          rw [incrCounters_dget _ _ _ hfw] at hgp
          show n = writersCount (dinsert st.activeEventDict ev.id _) k
          rw [writersCount_dinsert st.activeEventDict ev.id _ hdm2 k]
          by_cases hk : k ∈ ev.activeGlobWrites
          · rw [if_pos hk] at hgp
            cases hg0 : dget st.globSharedWriteVars k with
            | none =>
              rw [hg0] at hgp
              simp at hgp
            | some m =>
              rw [hg0] at hgp
              simp only [Option.map] at hgp
              injection hgp with hgp
              have hm : m = writersCount st.activeEventDict k :=
                hwa (k, m) (dget_mem _ _ _ hg0)
              simp only
              rw [if_pos hk]
              omega
          · rw [if_neg hk] at hgp
            have hm : n = writersCount st.activeEventDict k :=
              hwa (k, n) (dget_mem _ _ _ hgp)
            simp only
            rw [if_neg hk]
            omega
        · intro p hp q hq hne v hv hdr hdw
          have hdr2 : dmem (incrCounters st.globSharedReadVars ev.activeGlobReads) v =
              true := hdr
          have hdw2 : dmem (incrCounters st.globSharedWriteVars ev.activeGlobWrites) v =
              true := hdw
          rw [dmem_incrCounters _ _ _ hfr] at hdr2
          rw [dmem_incrCounters _ _ _ hfw] at hdw2
          rcases mem_dinsert _ _ _ _ hp with hp2 | hp2 <;>
            rcases mem_dinsert _ _ _ _ hq with hq2 | hq2
          · exact hmux p hp2 q hq2 hne v hv hdr2 hdw2
          · intro hcon
            refine hsafe p hp2 v hdr2 hdw2 (Or.inr ⟨hv, ?_⟩)
            rw [hq2] at hcon
            exact hcon
          · intro hcon
            rw [hp2] at hv
            refine hsafe q hq2 v hdr2 hdw2 (Or.inl ⟨hv, hcon⟩)
          · exfalso
            apply hne
            rw [hp2, hq2]
      · cases hR
        exact absurd rfl hout

theorem counterPos_true_of (d : List (String × Int)) (k : String) (n : Int)
    (hg : dget d k = some n) (hn : 0 < n) : counterPos d k = true := by
  unfold counterPos
  rw [hg]
  simpa using hn

theorem schedInv_resolve (st1 : EndpointState) (ev1 : ActiveEvent) (rOk force : Bool)
    (hinv : SchedInv st1) (hfr : ev1.activeGlobReads.Nodup)
    (hfw : ev1.activeGlobWrites.Nodup)
    (hout : (addEventResolveConflicts st1 ev1 rOk force).outcome ≠ PyOutcome.assertFail) :
    SchedInv (addEventResolveConflicts st1 ev1 rOk force).state := by
  rcases hR : addEventResolveConflicts st1 ev1 rOk force with ⟨o, a, c, e, s⟩
  rw [hR] at hout
  dsimp only at hout ⊢
  simp only [addEventResolveConflicts] at hR
  cases force with
  | true =>
    rw [if_pos rfl] at hR
    unfold ActiveEvent.postponeConflictingEvents at hR
    have hL2 := postponeKeysLoop_schedInv ev1 (dkeys st1.activeEventDict) st1 hinv
    obtain ⟨hlo, hLdictInv, _, _, _, _, _, _, hLsome, hLconf⟩ :=
      postponeKeysLoop_spec ev1 (dkeys st1.activeEventDict) st1 hinv.1
        hinv.1.1
        (fun k2 hk2 => by simpa [dmem] using dget_isSome_of_mem_dkeys _ _ hk2)
    rcases hL : postponeKeysLoop ev1 st1 (dkeys st1.activeEventDict) with ⟨lo, st2⟩
    rw [hL] at hR hL2 hlo hLdictInv hLsome hLconf
    dsimp only at hL2 hlo hLdictInv hLsome hLconf
    subst hlo
    dsimp only at hR
    have hsafe : AdmitSafe st2 ev1 := by
      intro q hq v _ _ hcon
      have hgq : dget st2.activeEventDict q.1 = some q.2 := by
        have := dget_of_mem_nodup st2.activeEventDict q.1 q.2 hLdictInv.1
        exact this (by rw [Prod.mk.eta]; exact hq)
      have hgq1 : dget st1.activeEventDict q.1 = some q.2 := hLsome q.1 q.2 hgq
      have hconf : ActiveEvent.conflicts ev1 q.2.actEvent = true := by
        unfold ActiveEvent.conflicts
        rcases hcon with ⟨hvw, hq2⟩ | ⟨hqw, hq2⟩
        · refine Bool.or_eq_true_iff.mpr (Or.inl ?_)
          refine List.any_eq_true.mpr ⟨v, hvw, ?_⟩
          rcases hq2 with h2 | h2
          · simp [h2]
          · simp [h2]
        · refine Bool.or_eq_true_iff.mpr (Or.inr ?_)
          refine List.any_eq_true.mpr ⟨v, hqw, ?_⟩
          rcases hq2 with h2 | h2
          · simp [h2]
          · simp [h2]
      have := hLconf q.1 q.2 hgq1
        (mem_dkeys_of_dget_isSome _ _ (by rw [hgq1]; rfl)) hconf
      rw [hgq] at this
      exact Option.noConfusion this
    have hA := schedInv_addEventAdmit st2 ev1 rOk hL2 hfr hfw hsafe
      (by rw [hR]; exact hout)
    rw [hR] at hA
    exact hA
  | false =>
    rw [if_neg (fun h => Bool.noConfusion h)] at hR
    by_cases h1 : ev1.activeGlobReads.any (fun k => counterPos st1.globSharedWriteVars k) =
        true
    · rw [if_pos h1] at hR
      cases hR
      exact hinv
    · have h1f : ev1.activeGlobReads.any
          (fun k => counterPos st1.globSharedWriteVars k) = false := by
        cases h2 : ev1.activeGlobReads.any (fun k => counterPos st1.globSharedWriteVars k)
        · rfl
        · exact absurd h2 h1
      rw [if_neg (by rw [h1f]; exact fun h => Bool.noConfusion h)] at hR
      by_cases h2 : ev1.activeGlobWrites.any (fun k =>
          counterPos st1.globSharedWriteVars k || counterPos st1.globSharedReadVars k) = true
      · rw [if_pos h2] at hR
        cases hR
        exact hinv
      · have h2f : ev1.activeGlobWrites.any (fun k =>
            counterPos st1.globSharedWriteVars k ||
              counterPos st1.globSharedReadVars k) = false := by
          cases h3 : ev1.activeGlobWrites.any (fun k =>
              counterPos st1.globSharedWriteVars k || counterPos st1.globSharedReadVars k)
          · rfl
          · exact absurd h3 h2
        rw [if_neg (by rw [h2f]; exact fun h => Bool.noConfusion h)] at hR
        have hsafe : AdmitSafe st1 ev1 := by
          intro q hq v hdr hdw hcon
          obtain ⟨⟨hnk, hels⟩, hnr, hnw, hfoot, ⟨hra, hwa⟩, hmux⟩ := hinv
          have hdr2 : (dget st1.globSharedReadVars v).isSome := hdr
          have hdw2 : (dget st1.globSharedWriteVars v).isSome := hdw
          cases hgr : dget st1.globSharedReadVars v with
          | none => rw [hgr] at hdr2; exact Bool.noConfusion hdr2
          | some rn =>
          cases hgw : dget st1.globSharedWriteVars v with
          | none => rw [hgw] at hdw2; exact Bool.noConfusion hdw2
          | some wn =>
          have hrn : rn = readersCount st1.activeEventDict v :=
            hra (v, rn) (dget_mem _ _ _ hgr)
          have hwn : wn = writersCount st1.activeEventDict v :=
            hwa (v, wn) (dget_mem _ _ _ hgw)
          rcases hcon with ⟨hvw, hq2⟩ | ⟨hqw, hq2⟩
          · have h2v := List.any_eq_false.mp h2f v hvw
            rcases hq2 with h3 | h3
            · have hpos : 0 < wn := by
                rw [hwn]
                exact writersCount_pos_of_mem _ q v hq h3
              rw [counterPos_true_of _ _ _ hgw hpos] at h2v
              simp at h2v
            · have hpos : 0 < rn := by
                rw [hrn]
                exact readersCount_pos_of_mem _ q v hq h3
              rw [counterPos_true_of _ _ _ hgr hpos] at h2v
              simp at h2v
          · have hpos : 0 < wn := by
              rw [hwn]
              exact writersCount_pos_of_mem _ q v hq hqw
            rcases hq2 with h3 | h3
            · have h2v := List.any_eq_false.mp h2f v h3
              rw [counterPos_true_of _ _ _ hgw hpos] at h2v
              simp at h2v
            · have h1v := List.any_eq_false.mp h1f v h3
              rw [counterPos_true_of _ _ _ hgw hpos] at h1v
              exact h1v rfl
        have hA := schedInv_addEventAdmit st1 ev1 rOk
          ⟨⟨hinv.1.1, hinv.1.2⟩, hinv.2.1, hinv.2.2.1, hinv.2.2.2.1, hinv.2.2.2.2.1,
            hinv.2.2.2.2.2⟩ hfr hfw hsafe (by rw [hR]; exact hout)
        rw [hR] at hA
        exact hA

theorem schedInv_addEvent (st : EndpointState) (ev : ActiveEvent)
    (reserveOk force newId : Bool) (hinv : SchedInv st)
    (hfr : ev.activeGlobReads.Nodup) (hfw : ev.activeGlobWrites.Nodup)
    (hout : (ActiveEvent.addEventToEndpointIfCan st ev reserveOk force newId).outcome ≠
      PyOutcome.assertFail) :
    SchedInv (ActiveEvent.addEventToEndpointIfCan st ev reserveOk force newId).state := by
  rcases hR : ActiveEvent.addEventToEndpointIfCan st ev reserveOk force newId
    with ⟨o, a, c, e, s⟩
  rw [hR] at hout
  dsimp only at hout ⊢
  simp only [ActiveEvent.addEventToEndpointIfCan] at hR
  by_cases hact : ev.active = true
  · simp only [hact, if_pos rfl] at hR
    cases hR
    exact absurd rfl hout
  · rw [if_neg hact] at hR
    cases newId with
    | true =>
      rw [if_pos rfl] at hR
      dsimp only at hR
      have hA := schedInv_resolve { st with lastIdAssigned := st.lastIdAssigned + 2 }
        { ev with id := st.lastIdAssigned + 2 } reserveOk force
        (schedInv_congr st _ rfl rfl rfl hinv) hfr hfw (by rw [hR]; exact hout)
      rw [hR] at hA
      exact hA
    | false =>
      rw [if_neg (fun h => Bool.noConfusion h)] at hR
      dsimp only at hR
      have hA := schedInv_resolve st ev reserveOk force hinv hfr hfw
        (by rw [hR]; exact hout)
      rw [hR] at hA
      exact hA

theorem schedInv_commitActiveEvent (st : EndpointState) (ev : ActiveEvent) (ctx : Context)
    (hinv : SchedInv st)
    (hreg : ∀ el, dget st.activeEventDict ev.id = some el → el.actEvent = ev) :
    SchedInv (Endpoint.commitActiveEvent st ev ctx).2 := by
  unfold Endpoint.commitActiveEvent
  by_cases hdm : dmem st.activeEventDict ev.id = false
  · rw [if_pos hdm]
    exact hinv
  · rw [if_neg hdm]
    cases hcw : checkWrittenExternalsLoop st.externalStore st.endpointName
        ctx.writtenToExternalsOnThisEndpoint with
    | assertFail => exact hinv
    | ok =>
      rcases hcm : Context.commit st.externalStore ctx with ⟨co, store1, context1⟩
      cases co with
      | assertFail => exact schedInv_congr st _ rfl rfl rfl hinv
      | ok =>
        dsimp only
        have hM : SchedInv { st with
            externalStore := store1,
            committedContext := Context.mergeContextIntoMe st.committedContext context1 } :=
          schedInv_congr st _ rfl rfl rfl hinv
        have hc := schedInv_cancel { st with
            externalStore := store1,
            committedContext := Context.mergeContextIntoMe st.committedContext context1 }
          ev hM hreg
        rcases hcc : ActiveEvent.cancelActiveEvent { st with
            externalStore := store1,
            committedContext := Context.mergeContextIntoMe st.committedContext context1 }
          ev with ⟨o2, b2, st2⟩
        rw [hcc] at hc
        cases o2 with
        | ok => exact hc
        | assertFail => exact hc

theorem schedInv_setCompleted (st : EndpointState) (ev : ActiveEvent) (context : Context)
    (hinv : SchedInv st)
    (hreg : ∀ el, dget st.activeEventDict ev.id = some el → el.actEvent = ev) :
    SchedInv (ActiveEvent.setCompleted st ev context).2 := by
  unfold ActiveEvent.setCompleted
  by_cases hid : context.id ≠ some ev.contextId
  · rw [if_pos hid]
    exact hinv
  · rw [if_neg hid]
    have hC := schedInv_commitActiveEvent st ev context hinv hreg
    rcases hcm : Endpoint.commitActiveEvent st ev context with ⟨o, st1⟩
    rw [hcm] at hC
    cases o with
    | ok => exact hC
    | assertFail => exact hC

/-- Claim C1 (amended): mutual exclusion of footprints on one endpoint
holds for the variables the endpoint tracks in its usage-counter
dictionaries.  The scheduling invariant SchedInv — well-formed dictionary,
accurate usage counters, duplicate-free footprints, and no tracked variable
lying in the write footprint of one registered event and in the read or
write footprint of another — is preserved by every admission
(addEventToEndpointIfCan, forced or not, that does not abort), by every
postponement, and by every commit step (setCompleted of the registered
event).  For untracked variables the counter check of admission is
vacuous, so exclusion over all variable identifiers is not preserved (see
the counterexample). -/
theorem tracked_mutual_exclusion_invariant (st : EndpointState) (hinv : SchedInv st) :
    (∀ (ev : ActiveEvent) (reserveOk force newId : Bool),
      ev.activeGlobReads.Nodup → ev.activeGlobWrites.Nodup →
      (ActiveEvent.addEventToEndpointIfCan st ev reserveOk force newId).outcome ≠
        PyOutcome.assertFail →
      SchedInv (ActiveEvent.addEventToEndpointIfCan st ev reserveOk force newId).state) ∧
    (∀ evId : Int, SchedInv (Endpoint.postponeActiveEvent st evId).2.1) ∧
    (∀ (ev : ActiveEvent) (context : Context),
      (∀ el, dget st.activeEventDict ev.id = some el → el.actEvent = ev) →
      SchedInv (ActiveEvent.setCompleted st ev context).2) :=
  ⟨fun ev r f n hfr hfw hout => schedInv_addEvent st ev r f n hinv hfr hfw hout,
   fun evId => schedInv_postponeActiveEvent st evId hinv,
   fun ev ctx hreg => schedInv_setCompleted st ev ctx hinv hreg⟩

/-- Witness for C1 at a concrete input: the Lobby endpoint state with its
registered event 0 satisfies the scheduling invariant, and the invariant
survives a postponement, a completion commit of event 0 and a forced
admission of a conflicting event. -/
theorem tracked_mutual_exclusion_invariant_witness :
    SchedInv lobbyStateWithActive ∧
    SchedInv (Endpoint.postponeActiveEvent lobbyStateWithActive 0).2.1 ∧
    SchedInv (ActiveEvent.setCompleted lobbyStateWithActive elClientOnCreate.actEvent
      ctxActive1).2 ∧
    SchedInv (ActiveEvent.addEventToEndpointIfCan lobbyStateWithActive evForcedConflict
      true true false).state := by
  have hinv : SchedInv lobbyStateWithActive := by
    unfold SchedInv DictInv CounterAccuracy trackedMutex
    decide
  have hmain := tracked_mutual_exclusion_invariant lobbyStateWithActive hinv
  refine ⟨hinv, hmain.2.1 0,
    hmain.2.2 elClientOnCreate.actEvent ctxActive1 ?_,
    hmain.1 evForcedConflict true true false (by decide) (by decide) (by decide)⟩
  intro el h
  have h0 : dget lobbyStateWithActive.activeEventDict elClientOnCreate.actEvent.id =
      some elClientOnCreate := by decide
  rw [h0] at h
  injection h with h
  rw [← h]
